import Mathlib

/-!
Verification of the lex-machina training-orchestration engine
(`crates/lex-learning/python/lex_learning`).

The Python source is shallowly embedded: Python `int` becomes `Int`,
Python `float` values that the orchestration code compares or orders
become `ℚ` (the spec excludes exact floating-point reproduction),
raised exceptions become an explicit `Except PyErr` channel, and the
external collaborators (estimators, Optuna's sampler, the preprocessor,
SHAP) become oracle fields of an environment structure.  A progress
reporter is embedded as the stream of answers its `is_cancelled` method
returns, consumed one answer per call; `NullProgressReporter` is the
empty stream (every answer defaults to `false`).
-/

deriving instance DecidableEq for Except

namespace LexML

/-! ## config.py -/

/-- `ProblemType` from `src/config.py`. -/
inductive ProblemType
  | classification
  | regression
deriving DecidableEq, Repr

/-- `PipelineConfig` from `src/config.py` (the dataclass fields, with the
Python defaults).  `test_size` is a Python float compared against 0 and 1;
it is embedded as `ℚ`. -/
structure PipelineConfig where
  problem_type : ProblemType
  target_column : Option String := none
  algorithm : Option String := none
  top_k_algorithms : Int := 3
  optimize_hyperparams : Bool := true
  n_trials : Int := 30
  cv_folds : Int := 5
  test_size : ℚ := 2/10
  enable_neural_networks : Bool := true
  enable_explainability : Bool := true
  shap_max_samples : Int := 100
  random_seed : Int := 42
  n_jobs : Int := -1
deriving DecidableEq, Repr

/-- `PipelineConfig.__post_init__` from `src/config.py`: the validation run
once at construction.  `.error msg` embeds `raise ValueError(msg)`;
`.ok ()` embeds a construction that succeeds. -/
def post_init (c : PipelineConfig) : Except String Unit :=
  if c.top_k_algorithms < 1 then .error "top_k_algorithms must be at least 1"
  else if c.n_trials < 1 then .error "n_trials must be at least 1"
  else if c.cv_folds < 2 then .error "cv_folds must be at least 2"
  else if ¬ (0 < c.test_size ∧ c.test_size < 1) then .error "test_size must be between 0 and 1"
  else if c.shap_max_samples < 1 then .error "shap_max_samples must be at least 1"
  else .ok ()

/-! ## training/selector.py -/

/-- `DatasetInfo` from `src/training/selector.py`. -/
structure DatasetInfo where
  n_samples : Int
  n_features : Int
  problem_type : ProblemType
  n_classes : Option Int := none
deriving DecidableEq, Repr

/-- `DatasetInfo.size_category`. -/
def DatasetInfo.size_category (d : DatasetInfo) : String :=
  if d.n_samples < 1000 then "small"
  else if d.n_samples < 10000 then "medium"
  else "large"

/-- `DatasetInfo.is_high_dimensional`: `n_features > 100 or
n_features > n_samples * 0.5` (the float product is exact here, so `ℚ`
is faithful). -/
def DatasetInfo.is_high_dimensional (d : DatasetInfo) : Bool :=
  d.n_features > 100 ∨ (d.n_features : ℚ) > (d.n_samples : ℚ) * (5/10)

/-- `CLASSIFICATION_PRIORITIES` from `src/training/selector.py`.  The dict
is only ever indexed with `size_category`, which produces one of the three
keys below; the final catch-all branch is unreachable from the source. -/
def CLASSIFICATION_PRIORITIES (k : String) : List String :=
  if k = "small" then
    ["logistic_regression", "decision_tree", "knn", "random_forest", "gradient_boosting"]
  else if k = "medium" then
    ["random_forest", "xgboost", "gradient_boosting", "logistic_regression", "lightgbm",
     "extra_trees"]
  else
    ["lightgbm", "xgboost", "random_forest", "neural_network", "gradient_boosting",
     "extra_trees"]

/-- `REGRESSION_PRIORITIES` from `src/training/selector.py`. -/
def REGRESSION_PRIORITIES (k : String) : List String :=
  if k = "small" then
    ["ridge", "decision_tree", "knn", "random_forest", "gradient_boosting"]
  else if k = "medium" then
    ["random_forest", "xgboost", "gradient_boosting", "ridge", "lightgbm", "extra_trees"]
  else
    ["lightgbm", "xgboost", "random_forest", "neural_network", "gradient_boosting",
     "extra_trees"]

/-- The local `tree_models` list inside `select_algorithms`. -/
def tree_models : List String :=
  ["random_forest", "extra_trees", "xgboost", "lightgbm", "gradient_boosting"]

/-- The high-dimensional re-ordering inside `select_algorithms`
(lines 119-125):
`[m for m in tree_models if m in priority_list] +
 [m for m in priority_list if m not in tree_models]`. -/
def boost_tree_models (priority_list : List String) : List String :=
  tree_models.filter (fun m => m ∈ priority_list) ++
    priority_list.filter (fun m => m ∉ tree_models)

/-- The first loop of `select_algorithms`: walk the priority list, append
names present in the available set and not selected yet, and stop as soon
as `top_k` names are selected.  The Python `set` is embedded by membership
in the (deduplicated-by-construction) list `available_set`. -/
def select_from_priority (available_set : List String) (top_k : Int) :
    List String → List String → List String
  | selected, [] => selected
  | selected, algo :: rest =>
    if algo ∈ available_set ∧ algo ∉ selected then
      let selected2 := selected ++ [algo]
      if top_k ≤ (selected2.length : Int) then selected2
      else select_from_priority available_set top_k selected2 rest
    else select_from_priority available_set top_k selected rest

/-- The second loop of `select_algorithms`: walk the original
`available_algorithms` list, appending names not yet selected (still
excluding the neural network when disabled) until `top_k` is reached. -/
def fill_remaining (include_neural : Bool) (top_k : Int) :
    List String → List String → List String
  | selected, [] => selected
  | selected, algo :: rest =>
    if algo ∉ selected ∧ (include_neural = true ∨ algo ≠ "neural_network") then
      let selected2 := selected ++ [algo]
      if top_k ≤ (selected2.length : Int) then selected2
      else fill_remaining include_neural top_k selected2 rest
    else fill_remaining include_neural top_k selected rest

/-- `select_algorithms` from `src/training/selector.py`. -/
def select_algorithms (dataset_info : DatasetInfo) (available_algorithms : List String)
    (top_k : Int := 3) (include_neural : Bool := true) : List String :=
  let priority_list0 :=
    if dataset_info.problem_type = .classification then
      CLASSIFICATION_PRIORITIES dataset_info.size_category
    else REGRESSION_PRIORITIES dataset_info.size_category
  -- `available_set = set(available_algorithms)`, then
  -- `available_set.discard("neural_network")` when neural nets are disabled.
  let available_set :=
    if include_neural = false then available_algorithms.filter (fun a => a ≠ "neural_network")
    else available_algorithms
  let priority_list :=
    if dataset_info.is_high_dimensional then boost_tree_models priority_list0
    else priority_list0
  let selected := select_from_priority available_set top_k [] priority_list
  if (selected.length : Int) < top_k then
    fill_remaining include_neural top_k selected available_algorithms
  else selected

/-! ## errors.py and the exception channel

All exceptions in `src/errors.py` derive from `LexMLError`, which derives
from Python's `Exception`; in particular `CancelledError` IS caught by a
bare `except Exception`.  `.pyException msg` embeds any other exception
deriving from `Exception` (`ValueError`, `KeyError`, `AssertionError`,
errors raised inside an external estimator, ...). -/

/-- One exception value.  Payloads keep exactly the data the constructors
in `src/errors.py` store. -/
inductive PyErr
  | invalidData (message : String)
  | targetNotFound (column : String) (available : List String)
  | trainingFailed (failures : List (String × String))
  | cancelled
  | pyException (message : String)
deriving DecidableEq, Repr

/-! ## progress/reporter.py -/

/-- `TrainingStage` from `src/progress/reporter.py`. -/
inductive TrainingStage
  | INITIALIZING
  | PREPROCESSING
  | ALGORITHM_SELECTION
  | TRAINING
  | EVALUATION
  | EXPLAINABILITY
  | COMPLETE
  | FAILED
  | CANCELLED
deriving DecidableEq, Repr

/-- `ProgressUpdate` from `src/progress/reporter.py`.  `progress` is a
fraction in `[0, 1]`, embedded as `ℚ`. -/
structure ProgressUpdate where
  stage : TrainingStage
  progress : ℚ
  message : String
  current_model : Option String := none
  models_completed : Option (Nat × Nat) := none
deriving DecidableEq, Repr

/-- A progress reporter is embedded as the stream of answers its
`is_cancelled()` method will give, consumed one per call; an exhausted
stream keeps answering `false`.  `NullProgressReporter` is `[]`. -/
abbrev Cancels := List Bool

/-- One call to `reporter.is_cancelled()`. -/
def is_cancelled : Cancels → Bool × Cancels
  | [] => (false, [])
  | b :: rest => (b, rest)

/-! ## Estimators, hyperparameters and the external environment -/

/-- A hyperparameter value (Optuna samples integers, reals and categorical
choices; reals are embedded as `ℚ`). -/
inductive ParamValue
  | int (i : Int)
  | real (q : ℚ)
  | str (s : String)
  | bool (b : Bool)
deriving DecidableEq, Repr

/-- A Python parameter dict, as an insertion-ordered association list. -/
abbrev Params := List (String × ParamValue)

/-- `d[k] = v` on a Python dict: update in place if the key exists,
append otherwise. -/
def dict_set (d : Params) (k : String) (v : ParamValue) : Params :=
  if d.any (fun p => p.1 = k) then
    d.map (fun p => if p.1 = k then (k, v) else p)
  else d ++ [(k, v)]

/-- `d[k]` lookup on an association list (used for the `models` dict). -/
def dict_get {α : Type} (d : List (String × α)) (k : String) : Option α :=
  (d.find? (fun p => p.1 = k)).map (fun p => p.2)

/-- An estimator instance.  The concrete statistical model is an external
collaborator; the core only ever constructs it (`create_model`), sets
attributes on it, fits it and hands it to oracles, so carrying its
algorithm name, its constructor/`setattr` parameters and a fitted flag is
a complete account of what the core observes. -/
structure Model where
  algorithm : String
  params : Params
  fitted : Bool := false
deriving DecidableEq, Repr

/-- Oracles for every external collaborator the trainer and optimizer
call: the model registry's library-dependent contents, Optuna's sampler,
`sklearn`'s `fit` / `score` / `cross_val_score`.  `none` answers embed a
raised exception inside the collaborator. -/
structure TrainEnv where
  /-- `name in _ALL_MODELS` (library availability makes this external). -/
  in_registry : String → Bool
  /-- `problem_type.value in config["problem_types"]`. -/
  supports : String → ProblemType → Bool
  /-- the registry's `default_params` entry for an algorithm. -/
  default_params : String → Params
  /-- parameter names accepted by the model class `__init__`
  (`_get_model_params` in `src/models/__init__.py`). -/
  init_keys : String → ProblemType → List String
  /-- the params Optuna's `suggest_params` draws for (algorithm, trial
  number); these become `trial.params`. -/
  trial_params : String → Nat → Params
  /-- mean `cross_val_score` of the trial's model inside `objective`;
  `none` embeds an exception raised during the trial body. -/
  trial_cv : String → Nat → Option ℚ
  /-- `hasattr(best_model, key)` when applying best params. -/
  has_attr : String → String → Bool
  /-- does `model.fit(X_train, y_train)` raise? -/
  fit_raises : Model → Bool
  /-- `_score_model(model, X_train, y_train, ...)`; `none` = raised. -/
  train_score : Model → Option ℚ
  /-- `_score_model(model, X_test, y_test, ...)`; `none` = raised. -/
  test_score : Model → Option ℚ
  /-- `_cross_validate(model, X_train, y_train, config)`; `none` = raised. -/
  cv_score : Model → Option ℚ

/-- `create_model` from `src/models/__init__.py`.  `trial` carries the
trial number when Optuna drives the construction (`trial=None` is
`none`).  After picking suggested or default params it injects the
configured seed and parallelism for the parameter names the model class
accepts. -/
def create_model (env : TrainEnv) (name : String) (problem_type : ProblemType)
    (trial : Option Nat) (random_seed : Int) (n_jobs : Int) : Except PyErr Model :=
  if ¬ env.in_registry name then .error (.pyException "Unknown algorithm")
  else if ¬ env.supports name problem_type then
    .error (.pyException "Algorithm does not support problem type")
  else
    let params :=
      match trial with
      | some t => env.trial_params name t
      | none => env.default_params name
    let keys := env.init_keys name problem_type
    let params := if "random_state" ∈ keys then dict_set params "random_state" (.int random_seed)
      else params
    let params := if "n_jobs" ∈ keys then dict_set params "n_jobs" (.int n_jobs) else params
    let params := if "seed" ∈ keys then dict_set params "seed" (.int random_seed) else params
    .ok { algorithm := name, params := params, fitted := false }

/-- `get_default_params` from `src/models/__init__.py`. -/
def get_default_params (env : TrainEnv) (name : String) : Params :=
  if ¬ env.in_registry name then [] else env.default_params name

/-! ## training/optimizer.py -/

/-- A completed Optuna trial (number, objective value, sampled params). -/
structure CompletedTrial where
  number : Nat
  value : ℚ
  params : Params
deriving DecidableEq, Repr

/-- The body of `objective` for one trial of `optimize_hyperparameters`:
check cancellation first, build the model from the trial's suggestions,
cross-validate it.  Returns the raised exception or the trial's score.
The `nonlocal best_params` bookkeeping (optimizer.py lines 82-88) is
omitted: its value is unconditionally overwritten at line 106 before any
use, and the guard's `trial.study.best_trial` access is only ever reached
when a completed trial exists, so the bookkeeping has no observable
effect. -/
def objective (env : TrainEnv) (algorithm : String) (cfg : PipelineConfig)
    (number : Nat) (cancels : Cancels) : Cancels × Except PyErr ℚ :=
  let (c, cancels) := is_cancelled cancels
  if c then (cancels, .error .cancelled)
  else
    match create_model env algorithm cfg.problem_type (some number) cfg.random_seed cfg.n_jobs with
    | .error e => (cancels, .error e)
    | .ok _ =>
      match env.trial_cv algorithm number with
      | none => (cancels, .error (.pyException "cross_val_score raised"))
      | some s => (cancels, .ok s)

/-- `study.optimize(objective, n_trials=..., catch=(Exception,))`: every
exception the objective raises — `CancelledError` included, since it
derives from `Exception` — is caught by Optuna, the trial is recorded as
failed, and the search continues with the next trial.  Returns the list
of completed trials in trial order. -/
def study_optimize (env : TrainEnv) (algorithm : String) (cfg : PipelineConfig) :
    Nat → Nat → Cancels → Cancels × List CompletedTrial
  | 0, _, cancels => (cancels, [])
  | fuel + 1, number, cancels =>
    match objective env algorithm cfg number cancels with
    | (cancels, .error _) => study_optimize env algorithm cfg fuel (number + 1) cancels
    | (cancels, .ok s) =>
      let (cancels, rest) := study_optimize env algorithm cfg fuel (number + 1) cancels
      (cancels, ⟨number, s, env.trial_params algorithm number⟩ :: rest)

/-- `study.best_trial` for a maximize-direction study: the earliest trial
achieving the maximal value (Optuna only replaces its cached best on a
strict improvement).  With no completed trial, Optuna's storage raises
`ValueError` — it does NOT return `None`. -/
def study_best_trial : List CompletedTrial → Except PyErr CompletedTrial
  | [] => .error (.pyException "ValueError: Record does not exist")
  | t :: ts => .ok (ts.foldl (fun b t2 => if t2.value > b.value then t2 else b) t)

/-- `setattr(best_model, key, value)` for each best param whose name the
model instance has (`optimize_hyperparameters` lines 115-118). -/
def apply_best_params (env : TrainEnv) (model : Model) (best_params : Params) : Model :=
  best_params.foldl
    (fun m kv => if env.has_attr m.algorithm kv.1 then { m with params := dict_set m.params kv.1 kv.2 }
      else m)
    model

/-- `optimize_hyperparameters` from `src/training/optimizer.py`.  Runs the
Optuna study, then evaluates `study.best_params if study.best_trial else {}`
— whose condition RAISES when no trial completed — and finally builds a
fresh, unfitted model with the best params applied. -/
def optimize_hyperparameters (env : TrainEnv) (algorithm : String) (cfg : PipelineConfig)
    (cancels : Cancels) : Cancels × Except PyErr (Model × Params) :=
  let (cancels, completed) := study_optimize env algorithm cfg cfg.n_trials.toNat 0 cancels
  match study_best_trial completed with
  | .error e => (cancels, .error e)
  | .ok best =>
    let best_params := best.params
    match create_model env algorithm cfg.problem_type none cfg.random_seed cfg.n_jobs with
    | .error e => (cancels, .error e)
    | .ok best_model => (cancels, .ok (apply_best_params env best_model best_params, best_params))

/-! ## training/trainer.py -/

/-- `_assess_overfitting` from `src/training/trainer.py`. -/
def _assess_overfitting (train_score test_score : ℚ) : String :=
  let gap := train_score - test_score
  if gap < 5/100 then "low"
  else if gap < 15/100 then "medium"
  else "high"

/-- `ModelResult` from `src/core/types.py`.  `training_time_seconds` is
wall-clock time and is not embedded. -/
structure ModelResult where
  name : String
  test_score : ℚ
  train_score : ℚ
  cv_score : ℚ
  hyperparameters : Params
  overfitting_risk : String
deriving DecidableEq, Repr

/-- `train_single_model` from `src/training/trainer.py`.  The whole body
sits in a `try` whose `except Exception` returns `None`; since every
embedded exception (including `CancelledError` and the `ValueError`
escaping `optimize_hyperparameters`) derives from `Exception`, no
exception ever escapes this function. -/
def train_single_model (env : TrainEnv) (algorithm : String) (cfg : PipelineConfig)
    (cancels : Cancels) : Cancels × Option (Model × ModelResult) :=
  let (cancels, step) :=
    if cfg.optimize_hyperparams then
      optimize_hyperparameters env algorithm cfg cancels
    else
      match create_model env algorithm cfg.problem_type none cfg.random_seed cfg.n_jobs with
      | .error e => (cancels, .error e)
      | .ok model => (cancels, .ok (model, get_default_params env algorithm))
  match step with
  | .error _ => (cancels, none)
  | .ok (model, best_params) =>
    if env.fit_raises model then (cancels, none)
    else
      let model := { model with fitted := true }
      match env.train_score model, env.test_score model, env.cv_score model with
      | some train_score, some test_score, some cv_score =>
        (cancels, some (model,
          { name := algorithm
            test_score := test_score
            train_score := train_score
            cv_score := cv_score
            hyperparameters := best_params
            overfitting_risk := _assess_overfitting train_score test_score }))
      | _, _, _ => (cancels, none)

/-- The progress event `train_models` reports before training algorithm
number `i` of `n`. -/
def training_event (algorithm : String) (i n : Nat) : ProgressUpdate :=
  { stage := .TRAINING
    progress := 2/10 + (65/100) * i / n
    message := s!"Training {algorithm}..."
    current_model := some algorithm
    models_completed := some (i, n) }

/-- The `for i, algorithm in enumerate(algorithms)` loop of `train_models`:
per algorithm, check cancellation (raising `CancelledError` aborts the
loop — this `raise` is outside the inner `try`), report progress, and run
`train_single_model`, collecting results, the `models` dict and the
`failures` dict in iteration order.  `train_single_model` cannot raise, so
the loop's `except CancelledError: raise` / `except Exception` arms are
dead and the collections are built exactly as below. -/
def train_models_loop (env : TrainEnv) (cfg : PipelineConfig) (n : Nat) :
    Nat → List String → Cancels →
    Cancels × List ProgressUpdate ×
      Except PyErr (List ModelResult × List (String × Model) × List (String × String))
  | _, [], cancels => (cancels, [], .ok ([], [], []))
  | i, algorithm :: rest, cancels =>
    let (c, cancels) := is_cancelled cancels
    if c then (cancels, [], .error .cancelled)
    else
      let ev := training_event algorithm i n
      match train_single_model env algorithm cfg cancels with
      | (cancels, some (model, model_result)) =>
        match train_models_loop env cfg n (i + 1) rest cancels with
        | (cancels, evs, .error e) => (cancels, ev :: evs, .error e)
        | (cancels, evs, .ok (results, models, failures)) =>
          (cancels, ev :: evs,
            .ok (model_result :: results, (algorithm, model) :: models, failures))
      | (cancels, none) =>
        match train_models_loop env cfg n (i + 1) rest cancels with
        | (cancels, evs, .error e) => (cancels, ev :: evs, .error e)
        | (cancels, evs, .ok (results, models, failures)) =>
          (cancels, ev :: evs,
            .ok (results, models, (algorithm, "Training returned no result") :: failures))

/-- Stable insertion of a result into a descending-sorted list: the new
element goes after every element whose test score is `≥` its own.  This is
the characterising property of CPython's stable `list.sort(key=...,
reverse=True)` step. -/
def sort_insert (r : ModelResult) : List ModelResult → List ModelResult
  | [] => [r]
  | x :: xs => if r.test_score ≤ x.test_score then x :: sort_insert r xs else r :: x :: xs

/-- `results.sort(key=lambda r: r.test_score, reverse=True)`: a stable
sort, descending by test score (CPython's `reverse=True` flips the
comparison without disturbing ties). -/
def sort_results (results : List ModelResult) : List ModelResult :=
  results.foldl (fun acc r => sort_insert r acc) []

/-- `train_models` from `src/training/trainer.py`.  The second component
of the output is the list of reported progress events; the third is the
returned `(best_model, results)` or the raised exception.  The unreachable
error arms embed the `IndexError` / `KeyError` Python would raise if the
sorted list were empty or the best name missing from the `models` dict. -/
def train_models (env : TrainEnv) (cfg : PipelineConfig) (algorithms : List String)
    (cancels : Cancels) :
    Cancels × List ProgressUpdate × Except PyErr (Model × List ModelResult) :=
  let n_algorithms := algorithms.length
  match train_models_loop env cfg n_algorithms 0 algorithms cancels with
  | (cancels, evs, .error e) => (cancels, evs, .error e)
  | (cancels, evs, .ok (results, models, failures)) =>
    if results.isEmpty then (cancels, evs, .error (.trainingFailed failures))
    else
      match sort_results results with
      | [] => (cancels, evs, .error (.pyException "IndexError"))
      | best :: sorted_rest =>
        match dict_get models best.name with
        | none => (cancels, evs, .error (.pyException "KeyError"))
        | some best_model => (cancels, evs, .ok (best_model, best :: sorted_rest))

/-! ## core/types.py: results, and pipeline/orchestrator.py context -/

/-- `ExplainabilityResult` from `src/core/types.py` (plot blobs are opaque
external bytes and are not embedded). -/
structure ExplainabilityResult where
  feature_importance : List (String × ℚ) := []
  method : String := "shap"
deriving DecidableEq, Repr

/-- The metrics variant computed by the evaluation stage.  Its numeric
content is produced entirely by external scorers, so it is embedded
opaquely as the oracle's payload. -/
structure Metrics where
  payload : String := ""
deriving DecidableEq, Repr

/-- `TrainingResult` from `src/core/types.py` (public fields plus the
internal best-estimator handle; the remaining `_`-prefixed opaque handles
are external references). -/
structure TrainingResult where
  success : Bool
  best_model_name : String
  metrics : Metrics
  model_comparison : List ModelResult
  explainability : ExplainabilityResult
  warnings : List String := []
  _model : Option Model := none
deriving DecidableEq, Repr

/-- `PipelineContext`: the mutable aggregate threaded through the stages.
External array-valued fields (`X`, `y`, the splits, the temporaries) are
embedded as presence flags, which is all the stages' precondition checks
observe. -/
structure PipelineContext where
  data_present : Bool := true
  x_y_set : Bool := false
  preprocessor : Bool := false
  x_transformed_present : Bool := false
  split_done : Bool := false
  target_column : Option String := none
  algorithms : Option (List String) := none
  model : Option Model := none
  model_results : Option (List ModelResult) := none
  metrics : Option Metrics := none
  explainability : Option ExplainabilityResult := none
  warnings : List String := []
deriving DecidableEq, Repr

/-- Oracles for the external collaborators of the pipeline stages, on top
of the trainer's `TrainEnv`: the raw dataframe's shape, the preprocessor,
`train_test_split`, the registry listing and the evaluation/attribution
computations. -/
structure PipelineEnv extends TrainEnv where
  /-- the dataframe's column names, in order. -/
  columns : List String
  /-- columns containing at least one null cell. -/
  null_columns : List String
  /-- `len(data)`. -/
  n_rows : Nat
  /-- does `Preprocessor(...).fit_transform` raise? -/
  preprocess_raises : Bool
  /-- does `train_test_split` raise? -/
  split_raises : Bool
  /-- `get_available_algorithms(problem_type)` (library-dependent). -/
  available_algorithms : List String
  /-- `X_train.shape` after the split. -/
  n_train_samples : Nat
  n_train_features : Nat
  /-- `len(np.unique(y_train))`. -/
  n_classes : Nat
  /-- does the evaluation stage's metric computation raise? -/
  eval_raises : Bool
  /-- the metrics the evaluation stage produces. -/
  metrics : Metrics
  /-- `explain_model(...)`: it catches its own failures and degrades to a
  sentinel `ExplainabilityResult`, so it never raises. -/
  explain_result : ExplainabilityResult

/-- `ValidationStage.execute` from `src/pipeline/stages.py`.  Each stage
returns the events it reported plus the updated context or the exception
it raised. -/
def ValidationStage_execute (env : PipelineEnv) (cfg : PipelineConfig)
    (ctx : PipelineContext) : List ProgressUpdate × Except PyErr PipelineContext :=
  ([⟨.PREPROCESSING, 5/100, "Validating data...", none, none⟩],
    if ¬ ctx.data_present then .error (.invalidData "No data provided to pipeline")
    else
      let target? :=
        match cfg.target_column with
        | some t => some t
        | none => env.columns.getLast?
      match target? with
      | none => .error (.pyException "IndexError")
      | some target_column =>
        if target_column ∉ env.columns then
          .error (.targetNotFound target_column env.columns)
        else if ¬ env.null_columns.isEmpty then
          .error (.invalidData s!"Data contains null values in columns: {env.null_columns}")
        else if env.n_rows < 10 then
          .error (.invalidData s!"Data must have at least 10 samples, got {env.n_rows}")
        else .ok { ctx with x_y_set := true, target_column := some target_column })

/-- `PreprocessingStage.execute` from `src/pipeline/stages.py`. -/
def PreprocessingStage_execute (env : PipelineEnv) (ctx : PipelineContext) :
    List ProgressUpdate × Except PyErr PipelineContext :=
  ([⟨.PREPROCESSING, 8/100, "Preprocessing data...", none, none⟩],
    if ¬ ctx.x_y_set then .error (.invalidData "Validation stage must run before preprocessing")
    else if env.preprocess_raises then .error (.pyException "fit_transform raised")
    else .ok { ctx with preprocessor := true, x_transformed_present := true })

/-- `SplitStage.execute` from `src/pipeline/stages.py` (the temporaries
set by preprocessing are deleted after the split). -/
def SplitStage_execute (env : PipelineEnv) (ctx : PipelineContext) :
    List ProgressUpdate × Except PyErr PipelineContext :=
  ([⟨.PREPROCESSING, 10/100, "Splitting data...", none, none⟩],
    if ¬ ctx.x_transformed_present then
      .error (.invalidData "Preprocessing stage must run before split")
    else if env.split_raises then .error (.pyException "train_test_split raised")
    else .ok { ctx with split_done := true, x_transformed_present := false })

/-- `AlgorithmSelectionStage.execute` from `src/pipeline/stages.py`. -/
def AlgorithmSelectionStage_execute (env : PipelineEnv) (cfg : PipelineConfig)
    (ctx : PipelineContext) : List ProgressUpdate × Except PyErr PipelineContext :=
  ([⟨.ALGORITHM_SELECTION, 15/100, "Selecting algorithms...", none, none⟩],
    if ¬ ctx.split_done then .error (.invalidData "Split stage must run before algorithm selection")
    else
      match cfg.algorithm with
      | some a => .ok { ctx with algorithms := some [a] }
      | none =>
        let available := env.available_algorithms
        let available :=
          if ¬ cfg.enable_neural_networks then available.filter (fun a => a ≠ "neural_network")
          else available
        let n_classes : Option Int :=
          if cfg.problem_type = .classification then some (env.n_classes : Int) else none
        let dataset_info : DatasetInfo :=
          { n_samples := (env.n_train_samples : Int)
            n_features := (env.n_train_features : Int)
            problem_type := cfg.problem_type
            n_classes := n_classes }
        .ok { ctx with
          algorithms := some (select_algorithms dataset_info available
            cfg.top_k_algorithms cfg.enable_neural_networks) })

/-- `ModelTrainingStage.execute` from `src/pipeline/stages.py`.  Unlike
the other stages it checks its preconditions BEFORE reporting, then
reports the 0.20 checkpoint and delegates to `train_models` (which
consumes the cancellation stream). -/
def ModelTrainingStage_execute (env : PipelineEnv) (cfg : PipelineConfig)
    (ctx : PipelineContext) (cancels : Cancels) :
    Cancels × List ProgressUpdate × Except PyErr PipelineContext :=
  match ctx.algorithms with
  | none => (cancels, [], .error (.invalidData "Algorithm selection stage must run before training"))
  | some algorithms =>
    if ¬ ctx.split_done then
      (cancels, [], .error (.invalidData "Split stage must run before training"))
    else
      let n := algorithms.length
      let ev : ProgressUpdate := ⟨.TRAINING, 20/100, s!"Training {n} models...", none, none⟩
      match train_models env.toTrainEnv cfg algorithms cancels with
      | (cancels, evs, .error e) => (cancels, ev :: evs, .error e)
      | (cancels, evs, .ok (best_model, model_results)) =>
        (cancels, ev :: evs,
          .ok { ctx with model := some best_model, model_results := some model_results })

/-- `EvaluationStage.execute` from `src/pipeline/stages.py`. -/
def EvaluationStage_execute (env : PipelineEnv) (ctx : PipelineContext) :
    List ProgressUpdate × Except PyErr PipelineContext :=
  ([⟨.EVALUATION, 90/100, "Calculating metrics...", none, none⟩],
    if ctx.model = none ∨ ¬ ctx.split_done then
      .error (.invalidData "Training stage must run before evaluation")
    else if env.eval_raises then .error (.pyException "metric computation raised")
    else .ok { ctx with metrics := some env.metrics })

/-- `ExplainabilityStage.execute` from `src/pipeline/stages.py`: when
explainability is disabled the stage reports nothing and records the
`"disabled"` sentinel; otherwise it reports 0.95 and records the external
attribution result (`explain_model` degrades internally, never raises). -/
def ExplainabilityStage_execute (env : PipelineEnv) (cfg : PipelineConfig)
    (ctx : PipelineContext) : List ProgressUpdate × Except PyErr PipelineContext :=
  if ¬ cfg.enable_explainability then
    ([], .ok { ctx with explainability := some { method := "disabled" } })
  else
    ([⟨.EXPLAINABILITY, 95/100, "Generating explanations...", none, none⟩],
      if ctx.model = none ∨ ¬ ctx.split_done ∨ ¬ ctx.preprocessor then
        .error (.invalidData "Training stage must run before explainability")
      else .ok { ctx with explainability := some env.explain_result })

/-- `Pipeline._build_result` from `src/pipeline/orchestrator.py`: the four
`assert`s, then `TrainingResult(success=True, best_model_name=
context.model_results[0].name, ..., explainability=context.explainability
or ExplainabilityResult(method="none"), ...)`.  An `ExplainabilityResult`
instance is always truthy, so `or` substitutes only for `None`. -/
def _build_result (ctx : PipelineContext) : Except PyErr TrainingResult :=
  if ctx.model_results = none ∨ ctx.metrics = none ∨ ¬ ctx.preprocessor ∨
      ctx.target_column = none then
    .error (.pyException "AssertionError")
  else
    match ctx.model_results, ctx.metrics with
    | some model_results, some metrics =>
      match model_results with
      | [] => .error (.pyException "IndexError")
      | r0 :: _ =>
        .ok { success := true
              best_model_name := r0.name
              metrics := metrics
              model_comparison := model_results
              explainability := ctx.explainability.getD { method := "none" }
              warnings := ctx.warnings
              _model := ctx.model }
    | _, _ => .error (.pyException "AssertionError")

/-- The message of an exception (`str(e)`), mirroring the `super().__init__`
formats in `src/errors.py`; used only for the `FAILED` report's text. -/
def PyErr.message : PyErr → String
  | .invalidData m => s!"Invalid data: {m}"
  | .targetNotFound c avail => s!"Target column {c} not found. Available columns: {avail}"
  | .trainingFailed _ => "All models failed to train"
  | .cancelled => "Training was cancelled"
  | .pyException m => m

/-- `Pipeline.train` from `src/pipeline/orchestrator.py`: report
`(INITIALIZING, 0.0)`, execute the seven stages in order over one context,
report `(COMPLETE, 1.0)` and build the result; `CancelledError` is
re-raised after a `(CANCELLED, 0.0)` report, any other exception after a
`(FAILED, 0.0)` report.  The output pairs the full reported event
sequence with the returned result or raised exception. -/
def Pipeline_train (env : PipelineEnv) (cfg : PipelineConfig) (cancels : Cancels) :
    List ProgressUpdate × Except PyErr TrainingResult :=
  let fail_events (e : PyErr) : List ProgressUpdate :=
    match e with
    | .cancelled => [⟨.CANCELLED, 0, "Training cancelled", none, none⟩]
    | _ => [⟨.FAILED, 0, s!"Training failed: {e.message}", none, none⟩]
  let ev0 : ProgressUpdate := ⟨.INITIALIZING, 0, "Initializing pipeline...", none, none⟩
  let ctx : PipelineContext := {}
  match ValidationStage_execute env cfg ctx with
  | (evs1, .error e) => (ev0 :: evs1 ++ fail_events e, .error e)
  | (evs1, .ok ctx) =>
  match PreprocessingStage_execute env ctx with
  | (evs2, .error e) => (ev0 :: evs1 ++ evs2 ++ fail_events e, .error e)
  | (evs2, .ok ctx) =>
  match SplitStage_execute env ctx with
  | (evs3, .error e) => (ev0 :: evs1 ++ evs2 ++ evs3 ++ fail_events e, .error e)
  | (evs3, .ok ctx) =>
  match AlgorithmSelectionStage_execute env cfg ctx with
  | (evs4, .error e) => (ev0 :: evs1 ++ evs2 ++ evs3 ++ evs4 ++ fail_events e, .error e)
  | (evs4, .ok ctx) =>
  match ModelTrainingStage_execute env cfg ctx cancels with
  | (_, evs5, .error e) => (ev0 :: evs1 ++ evs2 ++ evs3 ++ evs4 ++ evs5 ++ fail_events e, .error e)
  | (_, evs5, .ok ctx) =>
  match EvaluationStage_execute env ctx with
  | (evs6, .error e) =>
    (ev0 :: evs1 ++ evs2 ++ evs3 ++ evs4 ++ evs5 ++ evs6 ++ fail_events e, .error e)
  | (evs6, .ok ctx) =>
  match ExplainabilityStage_execute env cfg ctx with
  | (evs7, .error e) =>
    (ev0 :: evs1 ++ evs2 ++ evs3 ++ evs4 ++ evs5 ++ evs6 ++ evs7 ++ fail_events e, .error e)
  | (evs7, .ok ctx) =>
    let evc : ProgressUpdate := ⟨.COMPLETE, 1, "Training complete!", none, none⟩
    let evs := ev0 :: evs1 ++ evs2 ++ evs3 ++ evs4 ++ evs5 ++ evs6 ++ evs7 ++ [evc]
    match _build_result ctx with
    | .error e => (evs ++ fail_events e, .error e)
    | .ok result => (evs, .ok result)

/-- The progress-fraction schedule the specification states for a
successful run: fixed per-stage checkpoints 0.00, 0.05, 0.08, 0.10, 0.15,
0.20, then 0.20→0.85 interpolated per trained algorithm, then 0.90, 0.95
(only when the Explain stage runs) and 1.00.  Stated from the spec to be
compared with the event trace the embedded pipeline produces. -/
def spec_checkpoint_fractions (n : Nat) (explain : Bool) : List ℚ :=
  ([0, 5/100, 8/100, 10/100, 15/100, 20/100] : List ℚ) ++
    (List.range n).map (fun i : Nat => (2/10 : ℚ) + (65/100) * (i : ℚ) / (n : ℚ)) ++
    ([90/100] : List ℚ) ++ (if explain then ([95/100] : List ℚ) else []) ++ ([1] : List ℚ)

/-! ## Concrete environments used to instantiate the theorems -/

/-- The full available-algorithm list for classification when every
optional library is installed (registry order). -/
def all_classification_algorithms : List String :=
  ["logistic_regression", "decision_tree", "knn", "random_forest", "gradient_boosting",
   "extra_trees", "svm", "xgboost", "lightgbm", "neural_network"]

/-- The loop's collections (`results`, `models`, `failures`) as
`train_models` computed them before sorting; the error fallback is never
reached when the run returned normally. -/
def train_models_collect (env : TrainEnv) (cfg : PipelineConfig) (algorithms : List String)
    (cancels : Cancels) :
    List ModelResult × List (String × Model) × List (String × String) :=
  match (train_models_loop env cfg algorithms.length 0 algorithms cancels).2.2 with
  | .ok x => x
  | .error _ => ([], [], [])


/-- A benign trainer environment: every algorithm is registered and
supported, trials cross-validate successfully, fits succeed, and scores
are fixed rationals. -/
def env_base : TrainEnv :=
  { in_registry := fun _ => true
    supports := fun _ _ => true
    default_params := fun _ => []
    init_keys := fun _ _ => []
    trial_params := fun _ _ => [("max_depth", .int 5)]
    trial_cv := fun _ _ => some (9/10)
    has_attr := fun _ _ => true
    fit_raises := fun _ => false
    train_score := fun _ => some (9/10)
    test_score := fun _ => some (8/10)
    cv_score := fun _ => some (85/100) }

/-- A trainer environment in which every fit raises, so every
per-algorithm training attempt fails. -/
def env_all_fits_fail : TrainEnv :=
  { env_base with fit_raises := fun _ => true }

/-- A configuration with hyperparameter optimization disabled (static
defaults are used), as in the concrete trainer runs below. -/
def cfg_no_opt : PipelineConfig :=
  { problem_type := .classification, optimize_hyperparams := false }

/-- A trainer environment where the test score depends on the algorithm
so that the ranking theorems can be instantiated on a tie. -/
def env_tie : TrainEnv :=
  { env_base with test_score := fun _ => some (8/10) }

/-- The concrete `train_models` run used to instantiate the ranking
theorem: two algorithms, both succeeding with equal test scores. -/
def c3_run : Cancels × List ProgressUpdate × Except PyErr (Model × List ModelResult) :=
  train_models env_tie cfg_no_opt ["a", "b"] []

/-- The best model of `c3_run`. -/
def c3_best : Model :=
  match c3_run.2.2 with
  | .ok p => p.1
  | .error _ => { algorithm := "", params := [], fitted := false }

/-- The sorted result list of `c3_run`. -/
def c3_sorted : List ModelResult :=
  match c3_run.2.2 with
  | .ok p => p.2
  | .error _ => []

/-- A benign pipeline environment: clean three-column data, 50 rows, all
external collaborators succeed. -/
def env_pipeline : PipelineEnv :=
  { env_base with
    columns := ["f1", "f2", "label"]
    null_columns := []
    n_rows := 50
    preprocess_raises := false
    split_raises := false
    available_algorithms := ["logistic_regression", "decision_tree", "knn", "random_forest",
      "gradient_boosting", "extra_trees", "svm"]
    n_train_samples := 40
    n_train_features := 2
    n_classes := 2
    eval_raises := false
    metrics := { payload := "classification" }
    explain_result := { method := "shap" } }

/-- A pipeline configuration with optimization off and top-k = 2. -/
def cfg_pipeline : PipelineConfig :=
  { problem_type := .classification, optimize_hyperparams := false, top_k_algorithms := 2 }

/-- The concrete successful pipeline run used to instantiate the
orchestrator theorems. -/
def pipeline_run : List ProgressUpdate × Except PyErr TrainingResult :=
  Pipeline_train env_pipeline cfg_pipeline []

/-- The event trace of `pipeline_run`. -/
def pipeline_events : List ProgressUpdate := pipeline_run.1

/-- The result of `pipeline_run`. -/
def pipeline_result : TrainingResult :=
  match pipeline_run.2 with
  | .ok r => r
  | .error _ =>
    { success := false, best_model_name := "", metrics := {}, model_comparison := [],
      explainability := {} }

/-- A minimal `ModelResult` used by the sentinel-substitution witness. -/
def mr_c10 : ModelResult :=
  { name := "a", test_score := 1/2, train_score := 1/2, cv_score := 1/2,
    hyperparameters := [], overfitting_risk := "low" }

/-- A completed context whose explainability field was never set, to
exhibit the `"none"` sentinel substitution in `_build_result`. -/
def ctx_c10 : PipelineContext :=
  { data_present := true, x_y_set := true, preprocessor := true, split_done := true,
    target_column := some "label",
    model_results := some [mr_c10],
    metrics := some {} }

/-- The `TrainingResult` `_build_result` produces from `ctx_c10`. -/
def res_c10 : TrainingResult :=
  match _build_result ctx_c10 with
  | .ok r => r
  | .error _ =>
    { success := false, best_model_name := "", metrics := {}, model_comparison := [],
      explainability := {} }

/-! ## C6: overfitting-risk thresholds -/

/-- C6 (counterexample): the claim says boundary values exactly at 0.05
and 0.15 are classified into the lower bucket; on the code a gap of
exactly 0.05 is "medium", not "low", and a gap of exactly 0.15 is
"high", not "medium" — strict `<` sends boundaries to the HIGHER bucket. -/
theorem assess_overfitting_boundaries_go_to_upper_bucket :
    _assess_overfitting (5/100) 0 = "medium" ∧ ("medium" : String) ≠ "low" ∧
    _assess_overfitting (15/100) 0 = "high" ∧ ("high" : String) ≠ "medium" := by
  with_unfolding_all decide

/-- C6 (amended): the overfitting-risk classification of the gap uses
strict comparisons — gap < 0.05 yields "low", otherwise gap < 0.15 yields
"medium", otherwise "high" — and the boundary values exactly at 0.05 and
0.15 are classified into the higher bucket ("medium" and "high"
respectively). -/
theorem assess_overfitting_characterisation :
    ∀ train_score test_score : ℚ,
      (_assess_overfitting train_score test_score = "low" ↔
        train_score - test_score < 5/100) ∧
      (_assess_overfitting train_score test_score = "medium" ↔
        5/100 ≤ train_score - test_score ∧ train_score - test_score < 15/100) ∧
      (_assess_overfitting train_score test_score = "high" ↔
        15/100 ≤ train_score - test_score) := by
  intro a b
  simp only [_assess_overfitting]
  split_ifs with h1 h2 <;> refine ⟨?_, ?_, ?_⟩ <;>
    simp_all <;> first | linarith | (intro h; linarith)

/-! ## C7: configuration validation -/

/-- C7: `PipelineConfig` construction fails if and only if
top-k < 1, trials < 1, cv-folds < 2, the test fraction is not strictly
between 0 and 1, or the attribution sample cap < 1; outside these
conditions construction succeeds (and the validation runs only at
construction). -/
theorem post_init_fails_iff :
    ∀ c : PipelineConfig,
      (∃ msg, post_init c = .error msg) ↔
        (c.top_k_algorithms < 1 ∨ c.n_trials < 1 ∨ c.cv_folds < 2 ∨
          ¬ (0 < c.test_size ∧ c.test_size < 1) ∨ c.shap_max_samples < 1) := by
  intro c
  unfold post_init
  split_ifs with h1 h2 h3 h4 h5 <;> simp_all

/-! ## C9: optimizer behaviour when every trial fails -/

/-- C9 (code evidence): with every trial failing (here: `cross_val_score`
raising in each of the 3 trials), `optimize_hyperparameters` does NOT
return an empty parameter set with a default-constructed estimator — it
raises, because `study.best_params if study.best_trial else {}` evaluates
`study.best_trial`, which raises `ValueError` when no trial completed. -/
theorem optimize_all_trials_fail_raises :
    optimize_hyperparameters { env_base with trial_cv := fun _ _ => none }
      "random_forest" { problem_type := .classification, n_trials := 3 } [] =
      ([], .error (.pyException "ValueError: Record does not exist")) := by
  with_unfolding_all decide

/-! ## C1: cancellation observed at the start of a trial -/

/-- C1 (code evidence): a cancellation signal observed at the start of a
hyperparameter trial does NOT abort the run.  The reporter stream
`[false, true]` answers `false` at the training loop's per-algorithm check
and `true` at the first trial's check; the first conjunct shows the trial
body does observe the cancellation and raises `CancelledError`, yet the
whole single-algorithm run (second conjunct) terminates with
`TrainingFailedError`, not `CancelledError` (third conjunct): Optuna's
`catch=(Exception,)` and `train_single_model`'s `except Exception` both
swallow `CancelledError`, which derives from `Exception`. -/
theorem cancellation_at_trial_start_swallowed :
    objective env_base "random_forest"
      { problem_type := .classification, n_trials := 1 } 0 [true] =
      ([], .error .cancelled) ∧
    train_models env_base { problem_type := .classification, n_trials := 1 }
      ["random_forest"] [false, true] =
      ([], [training_event "random_forest" 0 1],
        .error (.trainingFailed [("random_forest", "Training returned no result")])) ∧
    (train_models env_base { problem_type := .classification, n_trials := 1 }
      ["random_forest"] [false, true]).2.2 ≠ .error .cancelled := by
  refine ⟨by with_unfolding_all decide, by with_unfolding_all decide,
    by with_unfolding_all decide⟩

/-! ## C5: high-dimensional tree-first re-ordering -/

/-- C5 (counterexample): for the claimed dataset (n_features=150,
n_samples=1000: high-dimensional, "medium"), the re-ordering does NOT
preserve the relative order inside the tree-ensemble subset: the medium
classification priority list has "xgboost" before "extra_trees", but the
re-ordered list — and the selector's output — has "extra_trees" before
"xgboost", because the comprehension iterates the `tree_models` constant,
not the priority list. -/
theorem boost_tree_models_reorders_tree_subset :
    (DatasetInfo.mk 1000 150 .classification none).is_high_dimensional = true ∧
    (DatasetInfo.mk 1000 150 .classification none).size_category = "medium" ∧
    "xgboost" ∈ tree_models ∧ "extra_trees" ∈ tree_models ∧
    (CLASSIFICATION_PRIORITIES "medium").indexOf "xgboost" <
      (CLASSIFICATION_PRIORITIES "medium").indexOf "extra_trees" ∧
    (boost_tree_models (CLASSIFICATION_PRIORITIES "medium")).indexOf "extra_trees" <
      (boost_tree_models (CLASSIFICATION_PRIORITIES "medium")).indexOf "xgboost" ∧
    select_algorithms (DatasetInfo.mk 1000 150 .classification none)
      all_classification_algorithms 6 true =
      ["random_forest", "extra_trees", "xgboost", "lightgbm", "gradient_boosting",
       "logistic_regression"] := by
  with_unfolding_all decide

/-- C5 (amended): for every priority list, the high-dimensional
re-ordering keeps exactly the priority list's members, puts the
tree-ensemble subset first — in the fixed order of the registry's
`tree_models` constant, not the priority list's internal order — and
preserves relative order among the non-tree names; consequently every
tree-ensemble name precedes every non-tree name, both in the re-ordered
list and in the selector's output for the 150-feature / 1000-sample
dataset. -/
theorem boost_tree_models_spec :
    (∀ priority_list : List String,
      (boost_tree_models priority_list).filter (fun m => decide (m ∈ tree_models)) =
        tree_models.filter (fun m => decide (m ∈ priority_list)) ∧
      (boost_tree_models priority_list).filter (fun m => decide (m ∉ tree_models)) =
        priority_list.filter (fun m => decide (m ∉ tree_models)) ∧
      (∀ a, a ∈ boost_tree_models priority_list ↔ a ∈ priority_list) ∧
      List.Pairwise (fun a b => b ∈ tree_models → a ∈ tree_models)
        (boost_tree_models priority_list)) ∧
    List.Pairwise (fun a b => b ∈ tree_models → a ∈ tree_models)
      (select_algorithms (DatasetInfo.mk 1000 150 .classification none)
        all_classification_algorithms 6 true) := by
  constructor
  · intro priority_list
    refine ⟨?_, ?_, ?_, ?_⟩
    · simp only [boost_tree_models, List.filter_append, List.filter_filter]
      have h2 : priority_list.filter
          (fun a => decide (a ∈ tree_models) && decide (a ∉ tree_models)) = [] := by
        apply List.filter_eq_nil_iff.mpr
        intro a _
        by_cases h : a ∈ tree_models <;> simp [h]
      rw [h2, List.append_nil]
      apply List.filter_congr
      intro a ha
      simp [ha]
    · simp only [boost_tree_models, List.filter_append, List.filter_filter]
      have h1 : tree_models.filter
          (fun a => decide (a ∉ tree_models) && decide (a ∈ priority_list)) = [] := by
        apply List.filter_eq_nil_iff.mpr
        intro a ha
        simp [ha]
      rw [h1, List.nil_append]
      apply List.filter_congr
      intro a _
      by_cases h : a ∈ tree_models <;> simp [h]
    · intro a
      simp only [boost_tree_models, List.mem_append, List.mem_filter]
      by_cases h : a ∈ tree_models <;> simp [h] <;> tauto
    · rw [boost_tree_models, List.pairwise_append]
      refine ⟨?_, ?_, ?_⟩
      · apply List.pairwise_of_forall_mem_list
        intro a ha _ _ _
        exact (List.mem_filter.mp ha).1
      · apply List.pairwise_of_forall_mem_list
        intro a ha b hb hbt
        have := (List.mem_filter.mp hb).2
        simp at this
        exact absurd hbt this
      · intro a ha b _
        exact fun _ => (List.mem_filter.mp ha).1
  · with_unfolding_all decide

/-! ## C4: selection length, neural exclusion, totality -/

lemma nodup_append_singleton {sel : List String} {a : String}
    (h : sel.Nodup) (ha : a ∉ sel) : (sel ++ [a]).Nodup := by
  simp [List.nodup_append, h, ha]

lemma length_append_singleton_cast (sel : List String) (a : String) :
    (((sel ++ [a]).length : Int)) = (sel.length : Int) + 1 := by
  simp

lemma select_from_priority_append (avail : List String) (k : Int) :
    ∀ l sel : List String, ∃ t, select_from_priority avail k sel l = sel ++ t := by
  intro l
  induction l with
  | nil => intro sel; exact ⟨[], by simp [select_from_priority]⟩
  | cons a rest ih =>
    intro sel
    by_cases h1 : a ∈ avail ∧ a ∉ sel
    · by_cases h2 : k ≤ (sel.length : Int) + 1
      · exact ⟨[a], by simp [select_from_priority, h1, h2]⟩
      · obtain ⟨t, ht⟩ := ih (sel ++ [a])
        exact ⟨[a] ++ t, by simp [select_from_priority, h1, h2, ht]⟩
    · obtain ⟨t, ht⟩ := ih sel
      exact ⟨t, by simp [select_from_priority, h1, ht]⟩

lemma select_from_priority_mem (avail : List String) (k : Int) :
    ∀ l sel x, x ∈ select_from_priority avail k sel l → x ∈ sel ∨ x ∈ avail := by
  intro l
  induction l with
  | nil => intro sel x hx; simp only [select_from_priority] at hx; exact .inl hx
  | cons a rest ih =>
    intro sel x hx
    by_cases h1 : a ∈ avail ∧ a ∉ sel
    · by_cases h2 : k ≤ (sel.length : Int) + 1
      · simp [select_from_priority, h1, h2] at hx
        rcases hx with hx | rfl
        · exact .inl hx
        · exact .inr h1.1
      · simp [select_from_priority, h1, h2] at hx
        rcases ih (sel ++ [a]) x hx with hx | hx
        · simp only [List.mem_append, List.mem_singleton] at hx
          rcases hx with hx | rfl
          · exact .inl hx
          · exact .inr h1.1
        · exact .inr hx
    · simp [select_from_priority, h1] at hx
      exact ih sel x hx

lemma select_from_priority_nodup (avail : List String) (k : Int) :
    ∀ l sel, sel.Nodup → (select_from_priority avail k sel l).Nodup := by
  intro l
  induction l with
  | nil => intro sel h; simp only [select_from_priority]; exact h
  | cons a rest ih =>
    intro sel h
    by_cases h1 : a ∈ avail ∧ a ∉ sel
    · by_cases h2 : k ≤ (sel.length : Int) + 1
      · simp only [select_from_priority, h1, and_self, if_true,
          length_append_singleton_cast]
        rw [if_pos h2]
        exact nodup_append_singleton h h1.2
      · simp only [select_from_priority, h1, and_self, if_true,
          length_append_singleton_cast]
        rw [if_neg h2]
        exact ih (sel ++ [a]) (nodup_append_singleton h h1.2)
    · simp only [select_from_priority, h1, if_false]
      exact ih sel h

lemma select_from_priority_length (avail : List String) (k : Int) :
    ∀ l sel, (sel.length : Int) < k →
      ((select_from_priority avail k sel l).length : Int) ≤ k := by
  intro l
  induction l with
  | nil => intro sel h; simp only [select_from_priority]; exact le_of_lt h
  | cons a rest ih =>
    intro sel h
    by_cases h1 : a ∈ avail ∧ a ∉ sel
    · by_cases h2 : k ≤ (sel.length : Int) + 1
      · simp only [select_from_priority]
        rw [if_pos h1]
        simp only [length_append_singleton_cast]
        rw [if_pos h2, length_append_singleton_cast]
        omega
      · simp only [select_from_priority]
        rw [if_pos h1]
        simp only [length_append_singleton_cast]
        rw [if_neg h2]
        exact ih (sel ++ [a]) (by rw [length_append_singleton_cast]; omega)
    · simp only [select_from_priority, h1, if_false]
      exact ih sel h

lemma fill_remaining_append (incl : Bool) (k : Int) :
    ∀ l sel : List String, ∃ t, fill_remaining incl k sel l = sel ++ t := by
  intro l
  induction l with
  | nil => intro sel; exact ⟨[], by simp [fill_remaining]⟩
  | cons a rest ih =>
    intro sel
    by_cases h1 : a ∉ sel ∧ (incl = true ∨ a ≠ "neural_network")
    · by_cases h2 : k ≤ (sel.length : Int) + 1
      · exact ⟨[a], by simp [fill_remaining, h1, h2]⟩
      · obtain ⟨t, ht⟩ := ih (sel ++ [a])
        exact ⟨[a] ++ t, by simp [fill_remaining, h1, h2, ht]⟩
    · obtain ⟨t, ht⟩ := ih sel
      exact ⟨t, by simp [fill_remaining, h1, ht]⟩

lemma fill_remaining_mem (incl : Bool) (k : Int) :
    ∀ l sel x, x ∈ fill_remaining incl k sel l →
      x ∈ sel ∨ (x ∈ l ∧ (incl = true ∨ x ≠ "neural_network")) := by
  intro l
  induction l with
  | nil => intro sel x hx; simp only [fill_remaining] at hx; exact .inl hx
  | cons a rest ih =>
    intro sel x hx
    by_cases h1 : a ∉ sel ∧ (incl = true ∨ a ≠ "neural_network")
    · by_cases h2 : k ≤ (sel.length : Int) + 1
      · simp [fill_remaining, h1, h2] at hx
        rcases hx with hx | rfl
        · exact .inl hx
        · exact .inr ⟨List.mem_cons_self _ _, h1.2⟩
      · simp [fill_remaining, h1, h2] at hx
        rcases ih (sel ++ [a]) x hx with hx | hx
        · simp only [List.mem_append, List.mem_singleton] at hx
          rcases hx with hx | rfl
          · exact .inl hx
          · exact .inr ⟨List.mem_cons_self _ _, h1.2⟩
        · exact .inr ⟨List.mem_cons_of_mem _ hx.1, hx.2⟩
    · simp [fill_remaining, h1] at hx
      rcases ih sel x hx with hx | hx
      · exact .inl hx
      · exact .inr ⟨List.mem_cons_of_mem _ hx.1, hx.2⟩

lemma fill_remaining_nodup (incl : Bool) (k : Int) :
    ∀ l sel, sel.Nodup → (fill_remaining incl k sel l).Nodup := by
  intro l
  induction l with
  | nil => intro sel h; simp only [fill_remaining]; exact h
  | cons a rest ih =>
    intro sel h
    by_cases h1 : a ∉ sel ∧ (incl = true ∨ a ≠ "neural_network")
    · by_cases h2 : k ≤ (sel.length : Int) + 1
      · simp only [fill_remaining, h1, and_self, if_true,
          length_append_singleton_cast]
        rw [if_pos h2]
        exact nodup_append_singleton h h1.1
      · simp only [fill_remaining, h1, and_self, if_true,
          length_append_singleton_cast]
        rw [if_neg h2]
        exact ih (sel ++ [a]) (nodup_append_singleton h h1.1)
    · simp only [fill_remaining, h1, if_false]
      exact ih sel h

lemma fill_remaining_length (incl : Bool) (k : Int) :
    ∀ l sel, (sel.length : Int) < k →
      ((fill_remaining incl k sel l).length : Int) ≤ k := by
  intro l
  induction l with
  | nil => intro sel h; simp only [fill_remaining]; exact le_of_lt h
  | cons a rest ih =>
    intro sel h
    by_cases h1 : a ∉ sel ∧ (incl = true ∨ a ≠ "neural_network")
    · by_cases h2 : k ≤ (sel.length : Int) + 1
      · simp only [fill_remaining]
        rw [if_pos h1]
        simp only [length_append_singleton_cast]
        rw [if_pos h2, length_append_singleton_cast]
        omega
      · simp only [fill_remaining]
        rw [if_pos h1]
        simp only [length_append_singleton_cast]
        rw [if_neg h2]
        exact ih (sel ++ [a]) (by rw [length_append_singleton_cast]; omega)
    · simp only [fill_remaining, h1, if_false]
      exact ih sel h

lemma fill_remaining_reach (incl : Bool) (k : Int) :
    ∀ l sel, (sel.length : Int) < k →
      ((fill_remaining incl k sel l).length : Int) = k ∨
      (∀ a ∈ l, (incl = true ∨ a ≠ "neural_network") → a ∈ fill_remaining incl k sel l) := by
  intro l
  induction l with
  | nil => intro sel _; exact .inr (by simp)
  | cons a rest ih =>
    intro sel h
    by_cases h1 : a ∉ sel ∧ (incl = true ∨ a ≠ "neural_network")
    · by_cases h2 : k ≤ (sel.length : Int) + 1
      · left
        simp only [fill_remaining]
        rw [if_pos h1]
        simp only [length_append_singleton_cast]
        rw [if_pos h2, length_append_singleton_cast]
        omega
      · have hlt : ((sel ++ [a]).length : Int) < k := by
          rw [length_append_singleton_cast]; omega
        rcases ih (sel ++ [a]) hlt with hreach | hcover
        · left
          simp only [fill_remaining]
          rw [if_pos h1]
          simp only [length_append_singleton_cast]
          rw [if_neg h2]
          exact hreach
        · right
          intro b hb hallow
          simp only [fill_remaining]
          rw [if_pos h1]
          simp only [length_append_singleton_cast]
          rw [if_neg h2]
          rcases List.mem_cons.mp hb with rfl | hb
          · obtain ⟨t, ht⟩ := fill_remaining_append incl k rest (sel ++ [b])
            rw [ht]
            simp
          · exact hcover b hb hallow
    · rcases ih sel h with hreach | hcover
      · left
        simp only [fill_remaining, h1, if_false]
        exact hreach
      · right
        intro b hb hallow
        simp only [fill_remaining, h1, if_false]
        rcases List.mem_cons.mp hb with rfl | hb
        · have hbsel : b ∈ sel := by
            by_contra hns
            exact h1 ⟨hns, hallow⟩
          obtain ⟨t, ht⟩ := fill_remaining_append incl k rest sel
          rw [ht]
          exact List.mem_append_left _ hbsel
        · exact hcover b hb hallow

/-- C4: for every `DatasetInfo`, duplicate-free available-algorithm list
and top-k ≥ 1, the selection's length is `min top_k` (number of available
algorithms after excluding the neural-network name when disabled), the
neural-network name never appears in the selection when disabled, and an
empty available list yields an empty selection (the function is total, so
selection never raises). -/
theorem select_algorithms_spec :
    ∀ (d : DatasetInfo) (available : List String) (top_k : Int) (include_neural : Bool),
      1 ≤ top_k → available.Nodup →
      ((select_algorithms d available top_k include_neural).length : Int) =
        min top_k (((if include_neural = false
          then available.filter (fun a => a ≠ "neural_network")
          else available).length : Int)) ∧
      (include_neural = false →
        "neural_network" ∉ select_algorithms d available top_k include_neural) ∧
      (available = [] → select_algorithms d available top_k include_neural = []) := by
  intro d available k incl hk hnd
  simp only [select_algorithms]
  set availSet := if incl = false then available.filter (fun a => a ≠ "neural_network")
    else available with hAvailSet
  have hndA : availSet.Nodup := by
    rw [hAvailSet]
    cases incl
    · simpa using hnd.filter _
    · simpa using hnd
  have hmemA : ∀ x, x ∈ available → (incl = true ∨ x ≠ "neural_network") → x ∈ availSet := by
    intro x hx hallow
    rw [hAvailSet]
    cases incl
    · simp only [if_pos rfl, List.mem_filter]
      rcases hallow with h | h
      · cases h
      · simp [hx, h]
    · simpa using hx
  have hmemA2 : ∀ x ∈ availSet, x ∈ available ∧ (incl = true ∨ x ≠ "neural_network") := by
    intro x hx
    rw [hAvailSet] at hx
    cases incl
    · rw [if_pos rfl] at hx
      simp only [List.mem_filter] at hx
      refine ⟨hx.1, .inr ?_⟩
      simpa using hx.2
    · rw [if_neg (by simp)] at hx
      exact ⟨hx, .inl rfl⟩
  have hnnA : incl = false → "neural_network" ∉ availSet := by
    intro h
    rw [hAvailSet, if_pos h]
    simp [List.mem_filter]
  have hA0 : available = [] → availSet = [] := by
    intro h
    rw [hAvailSet, h]
    cases incl <;> simp
  set prio := if d.is_high_dimensional = true then
      boost_tree_models
        (if d.problem_type = .classification then
          CLASSIFICATION_PRIORITIES d.size_category
        else REGRESSION_PRIORITIES d.size_category)
    else
      (if d.problem_type = .classification then
        CLASSIFICATION_PRIORITIES d.size_category
      else REGRESSION_PRIORITIES d.size_category) with hprio
  set s1 := select_from_priority availSet k [] prio with hs1
  have hs1nd : s1.Nodup := select_from_priority_nodup availSet k prio [] List.nodup_nil
  have hs1sub : ∀ x ∈ s1, x ∈ availSet := by
    intro x hx
    rcases select_from_priority_mem availSet k prio [] x hx with h | h
    · cases h
    · exact h
  by_cases hlt : (s1.length : Int) < k
  · rw [if_pos hlt]
    have hrnd : (fill_remaining incl k s1 available).Nodup :=
      fill_remaining_nodup incl k available s1 hs1nd
    have hrsub : ∀ x ∈ fill_remaining incl k s1 available, x ∈ availSet := by
      intro x hx
      rcases fill_remaining_mem incl k available s1 x hx with h | h
      · exact hs1sub x h
      · exact hmemA x h.1 h.2
    have hrle : ((fill_remaining incl k s1 available).length : Int) ≤ k :=
      fill_remaining_length incl k available s1 hlt
    have hlenle : (fill_remaining incl k s1 available).length ≤ availSet.length :=
      (List.subperm_of_subset hrnd fun x hx => hrsub x hx).length_le
    refine ⟨?_, ?_, ?_⟩
    · have hcast : ((fill_remaining incl k s1 available).length : Int) ≤
          (availSet.length : Int) := by exact_mod_cast hlenle
      rcases fill_remaining_reach incl k available s1 hlt with hreach | hcover
      · omega
      · have hcov2 : availSet ⊆ fill_remaining incl k s1 available := by
          intro x hx
          obtain ⟨hxa, hallow⟩ := hmemA2 x hx
          exact hcover x hxa hallow
        have hlen2 : availSet.length ≤ (fill_remaining incl k s1 available).length :=
          (List.subperm_of_subset hndA hcov2).length_le
        have hcast2 : (availSet.length : Int) ≤
            ((fill_remaining incl k s1 available).length : Int) := by exact_mod_cast hlen2
        omega
    · intro h0 hmem
      exact hnnA h0 (hrsub _ hmem)
    · intro h0
      refine List.eq_nil_iff_forall_not_mem.mpr fun x hx => ?_
      have := hrsub x hx
      rw [hA0 h0] at this
      cases this
  · rw [if_neg hlt]
    have hle : (s1.length : Int) ≤ k := by
      apply select_from_priority_length availSet k prio []
      simp only [List.length_nil, Nat.cast_zero]
      omega
    have hsEq : (s1.length : Int) = k := le_antisymm hle (not_lt.mp hlt)
    have hlenle : s1.length ≤ availSet.length :=
      (List.subperm_of_subset hs1nd fun x hx => hs1sub x hx).length_le
    have hcast : (s1.length : Int) ≤ (availSet.length : Int) := by exact_mod_cast hlenle
    refine ⟨by omega, ?_, ?_⟩
    · intro h0 hmem
      exact hnnA h0 (hs1sub _ hmem)
    · intro h0
      refine List.eq_nil_iff_forall_not_mem.mpr fun x hx => ?_
      have := hs1sub x hx
      rw [hA0 h0] at this
      cases this

/-- C4 (witness): a concrete instantiation — three available algorithms,
neural networks disabled, top-k = 2: the selection has length
min 2 2 = 2 and omits the neural network. -/
theorem select_algorithms_spec_witness :
    ((select_algorithms (DatasetInfo.mk 50 2 .classification none)
      ["logistic_regression", "neural_network", "svm"] 2 false).length : Int) =
      min 2 (((if (false : Bool) = false
        then ["logistic_regression", "neural_network", "svm"].filter
          (fun a => a ≠ "neural_network")
        else ["logistic_regression", "neural_network", "svm"]).length : Int)) ∧
    "neural_network" ∉ select_algorithms (DatasetInfo.mk 50 2 .classification none)
      ["logistic_regression", "neural_network", "svm"] 2 false :=
  have h := select_algorithms_spec (DatasetInfo.mk 50 2 .classification none)
    ["logistic_regression", "neural_network", "svm"] 2 false (by omega) (by decide)
  ⟨h.1, h.2.1 rfl⟩

/-! ## C3: stable descending sort and best-model selection -/

lemma sort_insert_perm (r : ModelResult) :
    ∀ l, (sort_insert r l).Perm (r :: l) := by
  intro l
  induction l with
  | nil => simp [sort_insert]
  | cons x xs ih =>
    by_cases h : r.test_score ≤ x.test_score
    · simp only [sort_insert, if_pos h]
      exact (ih.cons x).trans (List.Perm.swap r x xs)
    · simp only [sort_insert, if_neg h]
      exact List.Perm.refl _

lemma sort_insert_mem {y : ModelResult} (r : ModelResult) (l : List ModelResult) :
    y ∈ sort_insert r l → y = r ∨ y ∈ l := by
  intro hy
  have := (sort_insert_perm r l).mem_iff.mp hy
  simpa using this

lemma sort_insert_pairwise (r : ModelResult) :
    ∀ l, List.Pairwise (fun a b => b.test_score ≤ a.test_score) l →
      List.Pairwise (fun a b => b.test_score ≤ a.test_score) (sort_insert r l) := by
  intro l
  induction l with
  | nil => intro _; simp [sort_insert]
  | cons x xs ih =>
    intro h
    rw [List.pairwise_cons] at h
    obtain ⟨hx, hxs⟩ := h
    by_cases hle : r.test_score ≤ x.test_score
    · simp only [sort_insert, if_pos hle]
      rw [List.pairwise_cons]
      refine ⟨?_, ih hxs⟩
      intro y hy
      rcases sort_insert_mem r xs hy with rfl | hy
      · exact hle
      · exact hx y hy
    · simp only [sort_insert, if_neg hle]
      rw [List.pairwise_cons]
      refine ⟨?_, ?_⟩
      · intro y hy
        rcases List.mem_cons.mp hy with rfl | hy
        · exact le_of_lt (lt_of_not_le hle)
        · exact le_trans (hx y hy) (le_of_lt (lt_of_not_le hle))
      · rw [List.pairwise_cons]
        exact ⟨hx, hxs⟩

lemma sort_insert_filter (q : ℚ) (r : ModelResult) :
    ∀ l, List.Pairwise (fun a b => b.test_score ≤ a.test_score) l →
      (sort_insert r l).filter (fun y => y.test_score = q) =
        l.filter (fun y => y.test_score = q) ++
          (if r.test_score = q then [r] else []) := by
  intro l
  induction l with
  | nil =>
    intro _
    by_cases hr : r.test_score = q <;> simp [sort_insert, List.filter, hr]
  | cons x xs ih =>
    intro h
    rw [List.pairwise_cons] at h
    obtain ⟨hx, hxs⟩ := h
    by_cases hle : r.test_score ≤ x.test_score
    · simp only [sort_insert, if_pos hle, List.filter_cons, ih hxs]
      by_cases hpx : x.test_score = q <;> simp [hpx]
    · have hlt : x.test_score < r.test_score := lt_of_not_le hle
      by_cases hpr : r.test_score = q
      · have hnone : (x :: xs).filter (fun y => y.test_score = q) = [] := by
          apply List.filter_eq_nil_iff.mpr
          intro y hy
          rcases List.mem_cons.mp hy with rfl | hy
          · simp only [decide_eq_true_eq]
            intro hyq
            rw [← hpr] at hyq
            exact absurd hyq (ne_of_lt hlt)
          · simp only [decide_eq_true_eq]
            intro hyq
            have : y.test_score < r.test_score := lt_of_le_of_lt (hx y hy) hlt
            rw [hyq, ← hpr] at this
            exact absurd this (lt_irrefl _)
        simp only [sort_insert, if_neg hle]
        rw [List.filter_cons]
        simp [hpr, hnone]
      · simp only [sort_insert, if_neg hle]
        rw [List.filter_cons]
        simp [hpr]

lemma sort_results_foldl_pairwise :
    ∀ (l acc : List ModelResult),
      List.Pairwise (fun a b => b.test_score ≤ a.test_score) acc →
      List.Pairwise (fun a b => b.test_score ≤ a.test_score)
        (l.foldl (fun acc r => sort_insert r acc) acc) := by
  intro l
  induction l with
  | nil => intro acc h; exact h
  | cons x xs ih =>
    intro acc h
    exact ih (sort_insert x acc) (sort_insert_pairwise x acc h)

lemma sort_results_pairwise (l : List ModelResult) :
    List.Pairwise (fun a b => b.test_score ≤ a.test_score) (sort_results l) :=
  sort_results_foldl_pairwise l [] (List.Pairwise.nil)

lemma sort_results_foldl_filter (q : ℚ) :
    ∀ (l acc : List ModelResult),
      List.Pairwise (fun a b => b.test_score ≤ a.test_score) acc →
      (l.foldl (fun acc r => sort_insert r acc) acc).filter (fun y => y.test_score = q) =
        acc.filter (fun y => y.test_score = q) ++ l.filter (fun y => y.test_score = q) := by
  intro l
  induction l with
  | nil => intro acc _; simp
  | cons x xs ih =>
    intro acc h
    simp only [List.foldl_cons]
    rw [ih (sort_insert x acc) (sort_insert_pairwise x acc h),
      sort_insert_filter q x acc h, List.filter_cons]
    by_cases hpx : x.test_score = q <;> simp [hpx]

lemma sort_results_filter (q : ℚ) (l : List ModelResult) :
    (sort_results l).filter (fun y => y.test_score = q) =
      l.filter (fun y => y.test_score = q) := by
  have := sort_results_foldl_filter q l [] (List.Pairwise.nil)
  simpa [sort_results] using this

lemma sort_results_foldl_perm :
    ∀ (l acc : List ModelResult),
      (l.foldl (fun acc r => sort_insert r acc) acc).Perm (acc ++ l) := by
  intro l
  induction l with
  | nil => intro acc; simp
  | cons x xs ih =>
    intro acc
    simp only [List.foldl_cons]
    exact ((ih (sort_insert x acc)).trans
      ((sort_insert_perm x acc).append_right xs)).trans List.perm_middle.symm

lemma sort_results_perm (l : List ModelResult) : (sort_results l).Perm l := by
  have := sort_results_foldl_perm l []
  simpa [sort_results] using this

/-- If `train_single_model` returns a result, the `ModelResult` carries
the algorithm's name. -/
lemma train_single_model_name (env : TrainEnv) (a : String) (cfg : PipelineConfig)
    (cancels : Cancels) (m : Model) (r : ModelResult) :
    (train_single_model env a cfg cancels).2 = some (m, r) → r.name = a := by
  intro h
  simp only [train_single_model] at h
  split at h
  · simp at h
  · split at h
    · simp at h
    · split at h
      · simp only [Option.some.injEq, Prod.mk.injEq] at h
        rw [← h.2]
      · simp at h

/-- C3: whenever `train_models` returns normally, the returned list is the
stable descending sort (by test score) of the results collected in
training order: it is non-empty, sorted descending, tie-stable (filtering
at any score gives the training-order sublist), its head dominates every
entry, the returned best model is the `models`-dict entry for the head's
name, and `_build_result` names the head as `best_model_name`. -/
theorem train_models_returns_sorted (env : TrainEnv) (cfg : PipelineConfig)
    (algorithms : List String) (cancels : Cancels) (best : Model) (rs : List ModelResult) :
    (train_models env cfg algorithms cancels).2.2 = .ok (best, rs) →
    rs ≠ [] ∧
    rs = sort_results (train_models_collect env cfg algorithms cancels).1 ∧
    List.Pairwise (fun a b => b.test_score ≤ a.test_score) rs ∧
    (∀ q : ℚ, rs.filter (fun r => r.test_score = q) =
      (train_models_collect env cfg algorithms cancels).1.filter
        (fun r => r.test_score = q)) ∧
    ∀ r0, rs.head? = some r0 →
      (∀ r ∈ rs, r.test_score ≤ r0.test_score) ∧
      dict_get (train_models_collect env cfg algorithms cancels).2.1 r0.name = some best ∧
      ∀ ctx res, ctx.model_results = some rs → _build_result ctx = .ok res →
        res.best_model_name = r0.name := by
  intro h
  simp only [train_models] at h
  rcases hloop : train_models_loop env cfg algorithms.length 0 algorithms cancels with
    ⟨c, evs, out⟩
  rw [hloop] at h
  match out with
  | .error e => simp at h
  | .ok (results, models, failures) =>
    simp only at h
    by_cases hre : results.isEmpty
    · rw [if_pos hre] at h
      simp at h
    · rw [if_neg hre] at h
      have hcollect : train_models_collect env cfg algorithms cancels =
          (results, models, failures) := by
        simp [train_models_collect, hloop]
      rcases hsort : sort_results results with _ | ⟨b, rest⟩
      · rw [hsort] at h
        simp at h
      · rw [hsort] at h
        dsimp only at h
        rcases hdict : dict_get models b.name with _ | bm
        · rw [hdict] at h
          simp at h
        · rw [hdict] at h
          simp only [Except.ok.injEq, Prod.mk.injEq] at h
          obtain ⟨hbm, hrs⟩ := h
          subst hbm
          subst hrs
          have hpair : List.Pairwise (fun a b => b.test_score ≤ a.test_score)
              (b :: rest) := by
            rw [← hsort]
            exact sort_results_pairwise results
          refine ⟨by simp, ?_, hpair, ?_, ?_⟩
          · rw [hcollect, hsort]
          · intro q
            rw [hcollect]
            simp only
            rw [← hsort]
            exact sort_results_filter q results
          · intro r0 hr0
            simp only [List.head?_cons, Option.some.injEq] at hr0
            subst hr0
            refine ⟨?_, ?_, ?_⟩
            · intro r hr
              rcases List.mem_cons.mp hr with rfl | hr
              · exact le_refl _
              · exact (List.pairwise_cons.mp hpair).1 r hr
            · rw [hcollect]
              exact hdict
            · intro ctx res hmr hbr
              simp only [_build_result, hmr] at hbr
              split at hbr
              · exact Except.noConfusion hbr
              · rename_i hcond
                push_neg at hcond
                rcases hmet : ctx.metrics with _ | m
                · exact absurd hmet hcond.2.1
                · rw [hmet] at hbr
                  dsimp only at hbr
                  simp only [Except.ok.injEq] at hbr
                  rw [← hbr]

/-! ## C2: TrainingFailed aggregation

With the `NullProgressReporter` (the empty cancellation stream, every
`is_cancelled()` call returning `false`) every function threads the empty
stream through unchanged; the lemmas below make that explicit so the
training loop's collections can be computed per algorithm. -/

lemma objective_nil (env : TrainEnv) (a : String) (cfg : PipelineConfig) (n : Nat) :
    ∃ out, objective env a cfg n [] = ([], out) := by
  simp only [objective, is_cancelled]
  repeat' split
  all_goals exact ⟨_, rfl⟩

lemma study_optimize_nil (env : TrainEnv) (a : String) (cfg : PipelineConfig) :
    ∀ fuel n, ∃ trials, study_optimize env a cfg fuel n [] = ([], trials) := by
  intro fuel
  induction fuel with
  | zero => intro n; exact ⟨[], rfl⟩
  | succ f ih =>
    intro n
    obtain ⟨out, hout⟩ := objective_nil env a cfg n
    simp only [study_optimize, hout]
    cases out with
    | error e => exact ih (n + 1)
    | ok s =>
      obtain ⟨trials, htr⟩ := ih (n + 1)
      dsimp only
      rw [htr]
      exact ⟨_, rfl⟩

lemma optimize_nil (env : TrainEnv) (a : String) (cfg : PipelineConfig) :
    ∃ out, optimize_hyperparameters env a cfg [] = ([], out) := by
  obtain ⟨trials, ht⟩ := study_optimize_nil env a cfg cfg.n_trials.toNat 0
  simp only [optimize_hyperparameters, ht]
  repeat' split
  all_goals exact ⟨_, rfl⟩

lemma train_single_model_nil (env : TrainEnv) (a : String) (cfg : PipelineConfig) :
    ∃ out, train_single_model env a cfg [] = ([], out) := by
  simp only [train_single_model]
  by_cases hopt : cfg.optimize_hyperparams
  · simp only [hopt, if_true]
    obtain ⟨o, ho⟩ := optimize_nil env a cfg
    rw [ho]
    dsimp only
    cases o with
    | error e => exact ⟨_, rfl⟩
    | ok mp =>
      obtain ⟨m, bp⟩ := mp
      dsimp only
      repeat' split
      all_goals exact ⟨_, rfl⟩
  · rw [if_neg hopt]
    rcases hc : create_model env a cfg.problem_type none cfg.random_seed cfg.n_jobs with e | m
    all_goals dsimp only
    · exact ⟨_, rfl⟩
    · repeat' split
      all_goals exact ⟨_, rfl⟩

lemma train_models_loop_nil (env : TrainEnv) (cfg : PipelineConfig) (n : Nat) :
    ∀ (algos : List String) (i : Nat), ∃ evs,
      train_models_loop env cfg n i algos [] =
        ([], evs,
          .ok (algos.filterMap (fun a => ((train_single_model env a cfg []).2).map Prod.snd),
               algos.filterMap (fun a => ((train_single_model env a cfg []).2).map
                 (fun p => (a, p.1))),
               (algos.filter (fun a => ((train_single_model env a cfg []).2).isNone)).map
                 (fun a => (a, "Training returned no result")))) := by
  intro algos
  induction algos with
  | nil => intro i; exact ⟨[], rfl⟩
  | cons a rest ih =>
    intro i
    obtain ⟨out, hout⟩ := train_single_model_nil env a cfg
    obtain ⟨evs, hloop⟩ := ih (i + 1)
    have hsnd : (train_single_model env a cfg []).2 = out := by rw [hout]
    simp only [train_models_loop, is_cancelled]
    cases out with
    | none =>
      rw [hout]
      simp only [hloop]
      refine ⟨training_event a i n :: evs, ?_⟩
      simp [List.filterMap_cons, List.filter_cons, hsnd]
    | some p =>
      rw [hout]
      simp only [hloop]
      refine ⟨training_event a i n :: evs, ?_⟩
      simp [List.filterMap_cons, List.filter_cons, hsnd]

/-- C2: with no cancellation and a non-empty, duplicate-free algorithm
list, `train_models` raises `TrainingFailedError` iff every algorithm's
training attempt fails; the raised error carries exactly one entry per
(failed) algorithm, keyed by its name, with the recorded failure message;
and when at least one algorithm succeeds, the call returns normally (the
per-algorithm failures were recovered locally). -/
theorem train_models_failure_iff (env : TrainEnv) (cfg : PipelineConfig)
    (algorithms : List String) (h1 : algorithms ≠ []) (h2 : algorithms.Nodup) :
    ((∃ fs, (train_models env cfg algorithms []).2.2 = .error (.trainingFailed fs)) ↔
      ∀ a ∈ algorithms, (train_single_model env a cfg []).2 = none) ∧
    ((∀ a ∈ algorithms, (train_single_model env a cfg []).2 = none) →
      (train_models env cfg algorithms []).2.2 =
        .error (.trainingFailed
          (algorithms.map fun a => (a, "Training returned no result")))) ∧
    ((∃ a ∈ algorithms, (train_single_model env a cfg []).2 ≠ none) →
      ∃ bm rs, (train_models env cfg algorithms []).2.2 = .ok (bm, rs)) := by
  obtain ⟨evs, hloop⟩ := train_models_loop_nil env cfg algorithms.length algorithms 0
  simp only [train_models, hloop]
  by_cases hall : ∀ a ∈ algorithms, (train_single_model env a cfg []).2 = none
  · have hRnil : algorithms.filterMap
        (fun a => ((train_single_model env a cfg []).2).map Prod.snd) = [] := by
      apply List.filterMap_eq_nil_iff.mpr
      intro a ha
      rw [hall a ha]
      rfl
    have hF : algorithms.filter
        (fun a => ((train_single_model env a cfg []).2).isNone) = algorithms := by
      apply List.filter_eq_self.mpr
      intro a ha
      rw [hall a ha]
      rfl
    rw [hRnil, hF]
    simp only [List.isEmpty_nil, if_true]
    refine ⟨?_, ?_, ?_⟩
    · exact iff_of_true ⟨_, rfl⟩ hall
    · intro _; trivial
    · rintro ⟨a, ha, hne⟩
      exact absurd (hall a ha) hne
  · push_neg at hall
    have hRne : algorithms.filterMap
        (fun a => ((train_single_model env a cfg []).2).map Prod.snd) ≠ [] := by
      intro hnil
      obtain ⟨a, ha, hne⟩ := hall
      have := List.filterMap_eq_nil_iff.mp hnil a ha
      exact hne (Option.map_eq_none'.mp this)
    rw [if_neg (by simpa [List.isEmpty_iff] using hRne)]
    rcases hs : sort_results (algorithms.filterMap
        (fun a => ((train_single_model env a cfg []).2).map Prod.snd)) with _ | ⟨b, rest⟩
    · exfalso
      apply hRne
      have hlen := (sort_results_perm (algorithms.filterMap
        (fun a => ((train_single_model env a cfg []).2).map Prod.snd))).length_eq
      rw [hs] at hlen
      simpa using (List.length_eq_zero.mp hlen.symm)
    · dsimp only
      have hbmem : b ∈ algorithms.filterMap
          (fun a => ((train_single_model env a cfg []).2).map Prod.snd) := by
        have hperm := sort_results_perm (algorithms.filterMap
          (fun a => ((train_single_model env a cfg []).2).map Prod.snd))
        rw [hs] at hperm
        exact hperm.mem_iff.mp (List.mem_cons_self _ _)
      obtain ⟨a, ha, hfa⟩ := List.mem_filterMap.mp hbmem
      obtain ⟨p, hp, hps⟩ := Option.map_eq_some'.mp hfa
      have hname : b.name = a := by
        rw [← hps]
        exact train_single_model_name env a cfg [] p.1 p.2
          (by rw [hp])
      have hM : (a, p.1) ∈ algorithms.filterMap
          (fun a => ((train_single_model env a cfg []).2).map (fun q => (a, q.1))) := by
        apply List.mem_filterMap.mpr
        exact ⟨a, ha, by simp [hp]⟩
      have hfind : (List.find? (fun p2 => p2.1 = b.name) (algorithms.filterMap
          (fun a => ((train_single_model env a cfg []).2).map
            (fun q => (a, q.1))))).isSome := by
        rw [List.find?_isSome]
        exact ⟨(a, p.1), hM, by simp [hname]⟩
      obtain ⟨q, hq⟩ := Option.isSome_iff_exists.mp hfind
      have hbm : dict_get (algorithms.filterMap
          (fun a => ((train_single_model env a cfg []).2).map (fun q => (a, q.1))))
          b.name = some q.2 := by
        rw [dict_get, hq]
        rfl
      set bm := q.2
      rw [hbm]
      refine ⟨?_, ?_, ?_⟩
      · refine iff_of_false ?_ ?_
        · rintro ⟨fs, hfs⟩
          simp at hfs
        · intro hcon
          obtain ⟨a2, ha2, hne2⟩ := hall
          exact hne2 (hcon a2 ha2)
      · intro hcon
        obtain ⟨a2, ha2, hne2⟩ := hall
        exact absurd (hcon a2 ha2) hne2
      · intro _
        exact ⟨bm, b :: rest, rfl⟩

/-- C2 (witness): with every fit raising, a two-algorithm run raises
`TrainingFailedError` carrying one entry per algorithm. -/
theorem train_models_failure_iff_witness :
    (train_models env_all_fits_fail cfg_no_opt ["a", "b"] []).2.2 =
      .error (.trainingFailed [("a", "Training returned no result"),
        ("b", "Training returned no result")]) :=
  (train_models_failure_iff env_all_fits_fail cfg_no_opt ["a", "b"]
    (by simp) (by simp)).2.1 (by with_unfolding_all decide)

/-- C3 (witness): a concrete successful run with two tied algorithms: the
returned list is non-empty, sorted descending, and filtering at the tied
score preserves the training order of the collected results. -/
theorem train_models_returns_sorted_witness :
    c3_sorted ≠ [] ∧
    List.Pairwise (fun a b => b.test_score ≤ a.test_score) c3_sorted ∧
    c3_sorted.filter (fun r => r.test_score = 8/10) =
      (train_models_collect env_tie cfg_no_opt ["a", "b"] []).1.filter
        (fun r => r.test_score = 8/10) :=
  have h := train_models_returns_sorted env_tie cfg_no_opt ["a", "b"] [] c3_best c3_sorted
    (by with_unfolding_all decide)
  ⟨h.1, h.2.2.1, h.2.2.2.1 (8/10)⟩

/-! ## C8 and C10: orchestrator inversion lemmas -/

lemma ValidationStage_ok (env : PipelineEnv) (cfg : PipelineConfig) (ctx : PipelineContext)
    (evs : List ProgressUpdate) (ctx2 : PipelineContext) :
    ValidationStage_execute env cfg ctx = (evs, .ok ctx2) →
    evs = [⟨.PREPROCESSING, 5/100, "Validating data...", none, none⟩] ∧
    ∃ t, ctx2 = { ctx with x_y_set := true, target_column := some t } := by
  intro h
  simp only [ValidationStage_execute, Prod.mk.injEq] at h
  obtain ⟨h1, h2⟩ := h
  refine ⟨h1.symm, ?_⟩
  repeat' split at h2
  all_goals first
    | exact Except.noConfusion h2
    | (simp only [Except.ok.injEq] at h2; exact ⟨_, h2.symm⟩)

lemma PreprocessingStage_ok (env : PipelineEnv) (ctx : PipelineContext)
    (evs : List ProgressUpdate) (ctx2 : PipelineContext) :
    PreprocessingStage_execute env ctx = (evs, .ok ctx2) →
    evs = [⟨.PREPROCESSING, 8/100, "Preprocessing data...", none, none⟩] ∧
    ctx2 = { ctx with preprocessor := true, x_transformed_present := true } := by
  intro h
  simp only [PreprocessingStage_execute, Prod.mk.injEq] at h
  obtain ⟨h1, h2⟩ := h
  refine ⟨h1.symm, ?_⟩
  repeat' split at h2
  all_goals first
    | exact Except.noConfusion h2
    | (simp only [Except.ok.injEq] at h2; exact h2.symm)

lemma SplitStage_ok (env : PipelineEnv) (ctx : PipelineContext)
    (evs : List ProgressUpdate) (ctx2 : PipelineContext) :
    SplitStage_execute env ctx = (evs, .ok ctx2) →
    evs = [⟨.PREPROCESSING, 10/100, "Splitting data...", none, none⟩] ∧
    ctx2 = { ctx with split_done := true, x_transformed_present := false } := by
  intro h
  simp only [SplitStage_execute, Prod.mk.injEq] at h
  obtain ⟨h1, h2⟩ := h
  refine ⟨h1.symm, ?_⟩
  repeat' split at h2
  all_goals first
    | exact Except.noConfusion h2
    | (simp only [Except.ok.injEq] at h2; exact h2.symm)

lemma AlgorithmSelectionStage_ok (env : PipelineEnv) (cfg : PipelineConfig)
    (ctx : PipelineContext) (evs : List ProgressUpdate) (ctx2 : PipelineContext) :
    AlgorithmSelectionStage_execute env cfg ctx = (evs, .ok ctx2) →
    evs = [⟨.ALGORITHM_SELECTION, 15/100, "Selecting algorithms...", none, none⟩] ∧
    ∃ algos, ctx2 = { ctx with algorithms := some algos } := by
  intro h
  simp only [AlgorithmSelectionStage_execute, Prod.mk.injEq] at h
  obtain ⟨h1, h2⟩ := h
  refine ⟨h1.symm, ?_⟩
  repeat' split at h2
  all_goals first
    | exact Except.noConfusion h2
    | (simp only [Except.ok.injEq] at h2; exact ⟨_, h2.symm⟩)

lemma ModelTrainingStage_ok (env : PipelineEnv) (cfg : PipelineConfig)
    (ctx : PipelineContext) (cancels : Cancels) (c : Cancels)
    (evs : List ProgressUpdate) (ctx2 : PipelineContext) :
    ModelTrainingStage_execute env cfg ctx cancels = (c, evs, .ok ctx2) →
    ∃ algos c2 tevs best rs,
      ctx.algorithms = some algos ∧
      train_models env.toTrainEnv cfg algos cancels = (c2, tevs, .ok (best, rs)) ∧
      evs = ⟨.TRAINING, 20/100, s!"Training {algos.length} models...", none, none⟩ :: tevs ∧
      ctx2 = { ctx with model := some best, model_results := some rs } := by
  intro h
  simp only [ModelTrainingStage_execute] at h
  rcases halgos : ctx.algorithms with _ | algos
  · rw [halgos] at h
    simp at h
  · rw [halgos] at h
    dsimp only at h
    split at h
    · simp at h
    · rcases htm : train_models env.toTrainEnv cfg algos cancels with ⟨c2, tevs, out⟩
      rw [htm] at h
      cases out with
      | error e =>
        simp at h
      | ok p =>
        obtain ⟨best, rs⟩ := p
        dsimp only at h
        simp only [Prod.mk.injEq, Except.ok.injEq] at h
        obtain ⟨_, hevs, hctx⟩ := h
        exact ⟨algos, c2, tevs, best, rs, rfl, htm, hevs.symm, hctx.symm⟩

lemma EvaluationStage_ok (env : PipelineEnv) (ctx : PipelineContext)
    (evs : List ProgressUpdate) (ctx2 : PipelineContext) :
    EvaluationStage_execute env ctx = (evs, .ok ctx2) →
    evs = [⟨.EVALUATION, 90/100, "Calculating metrics...", none, none⟩] ∧
    ctx2 = { ctx with metrics := some env.metrics } := by
  intro h
  simp only [EvaluationStage_execute, Prod.mk.injEq] at h
  obtain ⟨h1, h2⟩ := h
  refine ⟨h1.symm, ?_⟩
  repeat' split at h2
  all_goals first
    | exact Except.noConfusion h2
    | (simp only [Except.ok.injEq] at h2; exact h2.symm)

lemma ExplainabilityStage_ok (env : PipelineEnv) (cfg : PipelineConfig)
    (ctx : PipelineContext) (evs : List ProgressUpdate) (ctx2 : PipelineContext) :
    ExplainabilityStage_execute env cfg ctx = (evs, .ok ctx2) →
    evs = (if cfg.enable_explainability then
        [⟨.EXPLAINABILITY, 95/100, "Generating explanations...", none, none⟩] else []) ∧
    ∃ er, ctx2 = { ctx with explainability := some er } := by
  intro h
  simp only [ExplainabilityStage_execute] at h
  by_cases hE : cfg.enable_explainability
  · rw [if_neg (by simpa using hE)] at h
    rw [if_pos hE]
    simp only [Prod.mk.injEq] at h
    obtain ⟨h1, h2⟩ := h
    refine ⟨h1.symm, ?_⟩
    repeat' split at h2
    all_goals first
      | exact Except.noConfusion h2
      | (simp only [Except.ok.injEq] at h2; exact ⟨_, h2.symm⟩)
  · rw [if_pos (by simpa using hE)] at h
    rw [if_neg hE]
    simp only [Prod.mk.injEq, Except.ok.injEq] at h
    obtain ⟨h1, h2⟩ := h
    exact ⟨h1.symm, _, h2.symm⟩

lemma train_models_loop_events (env : TrainEnv) (cfg : PipelineConfig) (n : Nat) :
    ∀ (algos : List String) (i : Nat) (cancels c : Cancels) (evs : List ProgressUpdate)
      (R : List ModelResult) (M : List (String × Model)) (F : List (String × String)),
      train_models_loop env cfg n i algos cancels = (c, evs, .ok (R, M, F)) →
      evs.map (fun e => e.progress) =
        (List.range' i algos.length).map
          (fun j : Nat => (2/10 : ℚ) + (65/100) * (j : ℚ) / (n : ℚ)) := by
  intro algos
  induction algos with
  | nil =>
    intro i cancels c evs R M F h
    simp only [train_models_loop, Prod.mk.injEq] at h
    rw [← h.2.1]
    simp
  | cons a rest ih =>
    intro i cancels c evs R M F h
    simp only [train_models_loop] at h
    rcases hic : is_cancelled cancels with ⟨cflag, cancels2⟩
    rw [hic] at h
    dsimp only at h
    split at h
    · simp at h
    · rcases hsm : train_single_model env a cfg cancels2 with ⟨cancels3, out⟩
      rw [hsm] at h
      cases out with
      | some p =>
        obtain ⟨m, r⟩ := p
        dsimp only at h
        rcases hrec : train_models_loop env cfg n (i + 1) rest cancels3 with ⟨c4, evs4, out4⟩
        rw [hrec] at h
        cases out4 with
        | error e => simp at h
        | ok trip =>
          obtain ⟨R4, M4, F4⟩ := trip
          dsimp only at h
          simp only [Prod.mk.injEq, Except.ok.injEq] at h
          obtain ⟨_, hevs, _⟩ := h
          rw [← hevs]
          simp only [List.map_cons, List.length_cons, List.range'_succ, training_event]
          rw [ih (i + 1) cancels3 c4 evs4 R4 M4 F4 hrec]
      | none =>
        dsimp only at h
        rcases hrec : train_models_loop env cfg n (i + 1) rest cancels3 with ⟨c4, evs4, out4⟩
        rw [hrec] at h
        cases out4 with
        | error e => simp at h
        | ok trip =>
          obtain ⟨R4, M4, F4⟩ := trip
          dsimp only at h
          simp only [Prod.mk.injEq, Except.ok.injEq] at h
          obtain ⟨_, hevs, _⟩ := h
          rw [← hevs]
          simp only [List.map_cons, List.length_cons, List.range'_succ, training_event]
          rw [ih (i + 1) cancels3 c4 evs4 R4 M4 F4 hrec]

lemma train_models_ok_events (env : TrainEnv) (cfg : PipelineConfig)
    (algos : List String) (cancels c : Cancels) (evs : List ProgressUpdate)
    (best : Model) (rs : List ModelResult) :
    train_models env cfg algos cancels = (c, evs, .ok (best, rs)) →
    algos ≠ [] ∧
    evs.map (fun e => e.progress) =
      (List.range algos.length).map
        (fun j : Nat => (2/10 : ℚ) + (65/100) * (j : ℚ) / (algos.length : ℚ)) := by
  intro h
  simp only [train_models] at h
  rcases hloop : train_models_loop env cfg algos.length 0 algos cancels with ⟨c2, evs2, out⟩
  rw [hloop] at h
  cases out with
  | error e => simp at h
  | ok trip =>
    obtain ⟨R, M, F⟩ := trip
    dsimp only at h
    by_cases hre : R.isEmpty
    · rw [if_pos hre] at h
      simp at h
    · rw [if_neg hre] at h
      have hevs2 : evs = evs2 := by
        rcases hs : sort_results R with _ | ⟨b, rest⟩
        · rw [hs] at h
          simp at h
        · rw [hs] at h
          dsimp only at h
          rcases hd : dict_get M b.name with _ | bm
          · rw [hd] at h
            simp at h
          · rw [hd] at h
            simp only [Prod.mk.injEq] at h
            exact h.2.1.symm
      have hne : algos ≠ [] := by
        intro hnil
        subst hnil
        simp only [train_models_loop, Prod.mk.injEq, Except.ok.injEq] at hloop
        obtain ⟨_, _, hR, _⟩ := hloop
        rw [← hR] at hre
        simp at hre
      subst hevs2
      refine ⟨hne, ?_⟩
      rw [train_models_loop_events env cfg algos.length algos 0 cancels c2 evs R M F hloop]
      rw [List.range_eq_range']

lemma interp_fraction_bounds (n j : Nat) (hn : 1 ≤ n) (hj : j < n) :
    (2/10 : ℚ) ≤ 2/10 + (65/100) * (j : ℚ) / (n : ℚ) ∧
      (2/10 : ℚ) + (65/100) * (j : ℚ) / (n : ℚ) ≤ 85/100 := by
  have hn0 : (0 : ℚ) < (n : ℚ) := by
    have : (0 : ℚ) < (1 : ℚ) := by norm_num
    calc (0 : ℚ) < 1 := this
      _ ≤ (n : ℚ) := by exact_mod_cast hn
  constructor
  · have : (0 : ℚ) ≤ (65/100) * (j : ℚ) / (n : ℚ) := by positivity
    linarith
  · have hjn : (j : ℚ) / (n : ℚ) ≤ 1 := by
      rw [div_le_one hn0]
      exact_mod_cast le_of_lt hj
    have : (65/100 : ℚ) * ((j : ℚ) / (n : ℚ)) ≤ (65/100 : ℚ) * 1 := by
      apply mul_le_mul_of_nonneg_left hjn
      norm_num
    rw [mul_div_assoc]
    linarith

lemma interp_fraction_mono (n i j : Nat) (hij : i < j) :
    (2/10 : ℚ) + (65/100) * (i : ℚ) / (n : ℚ) ≤
      (2/10 : ℚ) + (65/100) * (j : ℚ) / (n : ℚ) := by
  rcases Nat.eq_zero_or_pos n with hn | hn
  · subst hn
    norm_num
  · have hn0 : (0 : ℚ) < (n : ℚ) := by exact_mod_cast hn
    have hij2 : (i : ℚ) ≤ (j : ℚ) := by exact_mod_cast le_of_lt hij
    have h1 : (65/100 : ℚ) * (i : ℚ) ≤ (65/100 : ℚ) * (j : ℚ) := by
      apply mul_le_mul_of_nonneg_left hij2
      norm_num
    have := div_le_div_of_nonneg_right h1 hn0.le
    linarith

lemma spec_checkpoint_fractions_chain (n : Nat) (hn : 1 ≤ n) (explain : Bool) :
    List.Chain' (fun a b : ℚ => a ≤ b) (spec_checkpoint_fractions n explain) := by
  obtain ⟨m, rfl⟩ : ∃ m, n = m + 1 := ⟨n - 1, by omega⟩
  rw [spec_checkpoint_fractions]
  simp only [List.append_assoc]
  rw [List.chain'_append]
  refine ⟨?_, ?_, ?_⟩
  · norm_num [List.chain'_cons, List.chain'_singleton]
  · rw [List.chain'_append]
    refine ⟨?_, ?_, ?_⟩
    · apply List.Pairwise.chain'
      apply (List.pairwise_lt_range (m + 1)).map
      intro i j hij
      exact interp_fraction_mono (m + 1) i j hij
    · cases explain <;>
        norm_num [List.chain'_cons, List.chain'_singleton, List.chain'_append]
    · intro x hx y hy
      have hxmem : x ∈ (List.range (m + 1)).map
          (fun i : Nat => (2/10 : ℚ) + (65/100) * (i : ℚ) / ((m + 1 : Nat) : ℚ)) :=
        List.mem_of_getLast?_eq_some hx
      obtain ⟨j, hj, rfl⟩ := List.mem_map.mp hxmem
      have hj2 := List.mem_range.mp hj
      have hb := (interp_fraction_bounds (m + 1) j (by omega) hj2).2
      have hy2 : y = 90/100 := by
        cases explain <;> simp at hy <;> exact hy.symm
      rw [hy2]
      linarith
  · intro x hx y hy
    simp at hx
    rw [List.head?_append] at hy
    have hrange : List.range (m + 1) = 0 :: (List.range m).map Nat.succ :=
      List.range_succ_eq_map m
    rw [hrange] at hy
    simp at hy
    rw [← hx, ← hy]
    norm_num

/-- Inversion of a successful `Pipeline_train` run: the result was built
by `_build_result` from the final context, and the reported event trace is
the initializing event, one event per stage (explainability's only when
enabled), the per-algorithm training events, and the completing event. -/
lemma Pipeline_train_ok_inv (env : PipelineEnv) (cfg : PipelineConfig) (cancels : Cancels)
    (evs : List ProgressUpdate) (res : TrainingResult) :
    Pipeline_train env cfg cancels = (evs, .ok res) →
    ∃ (ctx : PipelineContext) (n : Nat) (tevs : List ProgressUpdate),
      1 ≤ n ∧
      _build_result ctx = .ok res ∧
      tevs.map (fun e => e.progress) =
        (List.range n).map (fun j : Nat => (2/10 : ℚ) + (65/100) * (j : ℚ) / (n : ℚ)) ∧
      evs = ⟨.INITIALIZING, 0, "Initializing pipeline...", none, none⟩ ::
        ([⟨.PREPROCESSING, 5/100, "Validating data...", none, none⟩] ++
          ([⟨.PREPROCESSING, 8/100, "Preprocessing data...", none, none⟩] ++
            ([⟨.PREPROCESSING, 10/100, "Splitting data...", none, none⟩] ++
              ([⟨.ALGORITHM_SELECTION, 15/100, "Selecting algorithms...", none, none⟩] ++
                ((⟨.TRAINING, 20/100, s!"Training {n} models...", none, none⟩ :: tevs) ++
                  ([⟨.EVALUATION, 90/100, "Calculating metrics...", none, none⟩] ++
                    ((if cfg.enable_explainability then
                      [⟨.EXPLAINABILITY, 95/100, "Generating explanations...", none, none⟩]
                    else []) ++
                      [⟨.COMPLETE, 1, "Training complete!", none, none⟩]))))))) := by
  intro h
  simp only [Pipeline_train] at h
  rcases h1 : ValidationStage_execute env cfg {} with ⟨evs1, r1⟩
  rw [h1] at h
  cases r1 with
  | error e => simp at h
  | ok ctx1 =>
  obtain ⟨hevs1, _, _⟩ := ValidationStage_ok env cfg {} evs1 ctx1 h1
  dsimp only at h
  rcases h2 : PreprocessingStage_execute env ctx1 with ⟨evs2, r2⟩
  rw [h2] at h
  cases r2 with
  | error e => simp at h
  | ok ctx2 =>
  obtain ⟨hevs2, _⟩ := PreprocessingStage_ok env ctx1 evs2 ctx2 h2
  dsimp only at h
  rcases h3 : SplitStage_execute env ctx2 with ⟨evs3, r3⟩
  rw [h3] at h
  cases r3 with
  | error e => simp at h
  | ok ctx3 =>
  obtain ⟨hevs3, _⟩ := SplitStage_ok env ctx2 evs3 ctx3 h3
  dsimp only at h
  rcases h4 : AlgorithmSelectionStage_execute env cfg ctx3 with ⟨evs4, r4⟩
  rw [h4] at h
  cases r4 with
  | error e => simp at h
  | ok ctx4 =>
  obtain ⟨hevs4, _⟩ := AlgorithmSelectionStage_ok env cfg ctx3 evs4 ctx4 h4
  dsimp only at h
  rcases h5 : ModelTrainingStage_execute env cfg ctx4 cancels with ⟨c5, evs5, r5⟩
  rw [h5] at h
  cases r5 with
  | error e => simp at h
  | ok ctx5 =>
  obtain ⟨algos, c2, tevs, best, rs, _, htm, hevs5, _⟩ :=
    ModelTrainingStage_ok env cfg ctx4 cancels c5 evs5 ctx5 h5
  obtain ⟨hne, hmap⟩ :=
    train_models_ok_events env.toTrainEnv cfg algos cancels c2 tevs best rs htm
  dsimp only at h
  rcases h6 : EvaluationStage_execute env ctx5 with ⟨evs6, r6⟩
  rw [h6] at h
  cases r6 with
  | error e => simp at h
  | ok ctx6 =>
  obtain ⟨hevs6, _⟩ := EvaluationStage_ok env ctx5 evs6 ctx6 h6
  dsimp only at h
  rcases h7 : ExplainabilityStage_execute env cfg ctx6 with ⟨evs7, r7⟩
  rw [h7] at h
  cases r7 with
  | error e => simp at h
  | ok ctx7 =>
  obtain ⟨hevs7, _⟩ := ExplainabilityStage_ok env cfg ctx6 evs7 ctx7 h7
  dsimp only at h
  rcases h8 : _build_result ctx7 with e | result
  · rw [h8] at h
    simp at h
  · rw [h8] at h
    dsimp only at h
    simp only [Prod.mk.injEq, Except.ok.injEq] at h
    obtain ⟨hevs, hres⟩ := h
    refine ⟨ctx7, algos.length, tevs, ?_, ?_, hmap, ?_⟩
    · cases halgos : algos with
      | nil => exact absurd halgos hne
      | cons a rest => simp [halgos]
    · rw [h8, hres]
    · rw [← hevs, hevs1, hevs2, hevs3, hevs4, hevs5, hevs6, hevs7]
      simp [List.append_assoc]

/-- C8: every successful run's captured progress trace starts with
(Initializing, 0.0), ends with (Complete, 1.0), is non-decreasing
throughout, and its fractions are exactly the fixed per-stage checkpoint
schedule 0.00, 0.05, 0.08, 0.10, 0.15, 0.20, the per-algorithm
interpolation from 0.20 towards 0.85, then 0.90, 0.95 (when the Explain
stage runs) and 1.00. -/
theorem pipeline_progress_spec (env : PipelineEnv) (cfg : PipelineConfig)
    (cancels : Cancels) (evs : List ProgressUpdate) (res : TrainingResult) :
    Pipeline_train env cfg cancels = (evs, .ok res) →
    ∃ n, 1 ≤ n ∧
      evs.map (fun e => e.progress) =
        spec_checkpoint_fractions n cfg.enable_explainability ∧
      evs.head? = some ⟨.INITIALIZING, 0, "Initializing pipeline...", none, none⟩ ∧
      evs.getLast? = some ⟨.COMPLETE, 1, "Training complete!", none, none⟩ ∧
      List.Chain' (fun e1 e2 => e1.progress ≤ e2.progress) evs := by
  intro h
  obtain ⟨ctx, n, tevs, hn, _, hmap, hevs⟩ :=
    Pipeline_train_ok_inv env cfg cancels evs res h
  have hfr : evs.map (fun e => e.progress) =
      spec_checkpoint_fractions n cfg.enable_explainability := by
    cases hE : cfg.enable_explainability <;>
      (rw [hevs, spec_checkpoint_fractions]
       simp [hE, hmap])
  refine ⟨n, hn, hfr, ?_, ?_, ?_⟩
  · rw [hevs]
    rfl
  · rw [hevs]
    simp only [← List.append_assoc, ← List.cons_append]
    rw [List.getLast?_concat]
  · have hc := spec_checkpoint_fractions_chain n hn cfg.enable_explainability
    rw [← hfr] at hc
    exact (List.chain'_map (fun e : ProgressUpdate => e.progress)).mp hc

/-- C8 (witness): the concrete successful pipeline run's trace starts at
(Initializing, 0.0), ends at (Complete, 1.0) and is non-decreasing. -/
theorem pipeline_progress_spec_witness :
    pipeline_events.head? =
      some ⟨.INITIALIZING, 0, "Initializing pipeline...", none, none⟩ ∧
    pipeline_events.getLast? = some ⟨.COMPLETE, 1, "Training complete!", none, none⟩ ∧
    List.Chain' (fun e1 e2 => e1.progress ≤ e2.progress) pipeline_events := by
  obtain ⟨n, _, _, hh, hl, hc⟩ := pipeline_progress_spec env_pipeline cfg_pipeline []
    pipeline_events pipeline_result (by with_unfolding_all decide)
  exact ⟨hh, hl, hc⟩

/-- C10: every `TrainingResult` a run returns has `success = True` (all
failure paths raise instead of returning a result), and `_build_result`
populates the explainability field with the context's value or the
`method = "none"` sentinel when none was produced — the field is never
null. -/
theorem pipeline_results_success_and_explainability :
    (∀ (env : PipelineEnv) (cfg : PipelineConfig) (cancels : Cancels)
        (evs : List ProgressUpdate) (res : TrainingResult),
      Pipeline_train env cfg cancels = (evs, .ok res) → res.success = true) ∧
    (∀ (ctx : PipelineContext) (res : TrainingResult),
      _build_result ctx = .ok res →
        res.success = true ∧
        res.explainability = ctx.explainability.getD { method := "none" }) := by
  have hbuild : ∀ (ctx : PipelineContext) (res : TrainingResult),
      _build_result ctx = .ok res →
        res.success = true ∧
        res.explainability = ctx.explainability.getD { method := "none" } := by
    intro ctx res h
    simp only [_build_result] at h
    repeat' split at h
    all_goals first
      | exact Except.noConfusion h
      | (simp only [Except.ok.injEq] at h
         rw [← h]
         exact ⟨rfl, rfl⟩)
  refine ⟨?_, hbuild⟩
  intro env cfg cancels evs res h
  obtain ⟨ctx, _, _, _, hb, _, _⟩ := Pipeline_train_ok_inv env cfg cancels evs res h
  exact (hbuild ctx res hb).1

/-- C10 (witness): the concrete run's result has `success = true`, and a
context without an attribution result yields the `"none"` sentinel. -/
theorem pipeline_results_success_witness :
    pipeline_result.success = true ∧
    res_c10.success = true ∧
    res_c10.explainability = { feature_importance := [], method := "none" } := by
  have h1 := pipeline_results_success_and_explainability.1 env_pipeline cfg_pipeline []
    pipeline_events pipeline_result (by with_unfolding_all decide)
  have h2 := pipeline_results_success_and_explainability.2 ctx_c10 res_c10
    (by with_unfolding_all decide)
  refine ⟨h1, h2.1, ?_⟩
  rw [h2.2]
  with_unfolding_all decide

end LexML
